import Mathlib

/-!
Verification development for the `borsim.py` limit-order-book market simulator
(a BSE derivative).  The Python source is shallowly embedded: the mutable
`Orderbook_half` / `Exchange` / `Trader` objects become Lean structures, and
each mutating method becomes a pure function from the old state to the new
state (returning `Option`/`Except` where the Python method can raise).

Modelling conventions, fixed once here:
* Prices are `Int` (the data model declares integer prices in
  `[bse_sys_minprice, bse_sys_maxprice]`); timestamps are `ℚ` (Python floats);
  quantities are `Int`.
* A Python `dict` is an insertion-ordered association list: assigning to an
  existing key replaces the value in place (keeping the key's position, as
  Python 3.7+ dicts do), assigning a fresh key appends at the end, `del`
  removes the key's entry.
* `Orderbook_half.lob` and `lob_anon` are recomputed from `orders` by
  `build_lob` after every mutation in the source, so they are represented as
  derived functions of `orders` rather than stored fields; the cached
  `best_price`/`best_tid`/`n_orders`/`lob_depth` attributes are kept as real
  stored fields and updated exactly where the source updates them.
-/

namespace Borsim

/-- bse_sys_minprice = 1. -/
def bse_sys_minprice : Int := 1

/-- bse_sys_maxprice = 1000. -/
def bse_sys_maxprice : Int := 1000

/-- Order type tag: 'Bid' or 'Ask'. -/
inductive Side where
  | Bid : Side
  | Ask : Side
deriving DecidableEq, Repr

/-- An Order/quote: trader id, type (buy/sell), price, quantity, timestamp,
unique id (class `Order` in the source). -/
structure Order where
  tid : String
  otype : Side
  price : Int
  qty : Int
  time : ℚ
  qid : Int
deriving DecidableEq, Repr

/-- A record on the exchange's tape: either a Trade dict
(`{'type':'Trade','time','price','party1','party2','qty'}`) or a Cancel dict
(`{'type':'Cancel','time','order'}`). -/
inductive TapeRec where
  | trade (time : ℚ) (price : Int) (party1 : String) (party2 : String) (qty : Int) : TapeRec
  | cancel (time : ℚ) (order : Order) : TapeRec
deriving DecidableEq, Repr

/-- Return value of `Orderbook_half.book_add`: 'Addition' or 'Overwrite'. -/
inductive AddResponse where
  | Addition : AddResponse
  | Overwrite : AddResponse
deriving DecidableEq, Repr

/-- Python dict assignment `d[k] = v` on an insertion-ordered association
list: replace in place if the key is present, else append at the end. -/
def dictSet (l : List (String × Order)) (k : String) (v : Order) : List (String × Order) :=
  match l with
  | [] => [(k, v)]
  | e :: rest => if e.1 = k then (k, v) :: rest else e :: dictSet rest k v

/-- Python dict deletion `del d[k]`. -/
def dictDel (l : List (String × Order)) (k : String) : List (String × Order) :=
  l.filter (fun e => e.1 ≠ k)

/-- One side of the book (class `Orderbook_half`).  `orders` is the dict of
resting orders indexed by trader id; `lob`/`lob_anon` are derived (see module
comment). -/
structure OrderbookHalf where
  booktype : Side
  orders : List (String × Order)
  worstprice : Int
  best_price : Option Int
  best_tid : Option String
  n_orders : Int
  lob_depth : Int
deriving DecidableEq, Repr

/-- `Orderbook_half.__init__(booktype, worstprice)`. -/
def mkHalf (booktype : Side) (worstprice : Int) : OrderbookHalf :=
  { booktype := booktype, orders := [], worstprice := worstprice,
    best_price := none, best_tid := none, n_orders := 0, lob_depth := 0 }

/-- The multiset of resting prices of a side (the values `order.price` for
`tid in self.orders`). -/
def pricesOf (orders : List (String × Order)) : List Int :=
  orders.map (fun e => e.2.price)

/-- The FIFO list `self.lob[price][1]` that `build_lob` constructs for one
price level: the orders at that price, in dict-iteration (= insertion) order.
Each Python entry `[order.time, order.qty, order.tid, order.qid]` is kept as
the order itself. -/
def ordersAtPrice (p : Int) (orders : List (String × Order)) : List Order :=
  (orders.filter (fun e => e.2.price = p)).map (fun e => e.2)

/-- The aggregate quantity `self.lob[price][0]` at one price level. -/
def qtyAtPrice (p : Int) (orders : List (String × Order)) : Int :=
  ((ordersAtPrice p orders).map (fun o => o.qty)).sum

/-- Insert a price into an ascending list, keeping it ascending. -/
def insertAsc (x : Int) : List Int → List Int
  | [] => [x]
  | y :: ys => if x ≤ y then x :: y :: ys else y :: insertAsc x ys

/-- Ascending insertion sort (the behaviour of Python's `sorted` on the
distinct price keys; written structurally recursively so that concrete
instances evaluate in the kernel). -/
def sortAsc (l : List Int) : List Int := l.foldr insertAsc []

/-- The ascending list of distinct resting prices (`sorted(self.lob)` in
`anonymize_lob`). -/
def sortedPrices (orders : List (String × Order)) : List Int :=
  sortAsc ((pricesOf orders).dedup)

/-- The anonymized LOB `self.lob_anon`: ascending `[price, qty]` pairs
(`anonymize_lob`). -/
def lobAnon (orders : List (String × Order)) : List (Int × Int) :=
  (sortedPrices orders).map (fun p => (p, qtyAtPrice p orders))

/-- The best price `build_lob` records: last element of `lob_anon` for bids,
first for asks; `None` when the side is empty. -/
def bestFromAnon (booktype : Side) (orders : List (String × Order)) : Option Int :=
  match booktype with
  | Side.Bid => ((lobAnon orders).getLast?).map (fun e => e.1)
  | Side.Ask => ((lobAnon orders).head?).map (fun e => e.1)

/-- The best trader id `build_lob` records:
`self.lob[self.best_price][1][0][2]`, the owner of the first (FIFO-head)
order at the best price; `None` when the side is empty. -/
def bestTidFromLob (booktype : Side) (orders : List (String × Order)) : Option String :=
  (bestFromAnon booktype orders).bind
    (fun bp => ((ordersAtPrice bp orders).head?).map (fun o => o.tid))

/-- `Orderbook_half.build_lob`: rebuild `lob`/`lob_anon` (derived here) and
re-record the best price and its trader id from the current `orders`. -/
def buildLob (h : OrderbookHalf) : OrderbookHalf :=
  { h with best_price := bestFromAnon h.booktype h.orders,
           best_tid := bestTidFromLob h.booktype h.orders }

/-- `Orderbook_half.book_add(order)`: insert/replace the owner's resting
order, set `n_orders = len(self.orders)`, rebuild, and report whether the
owner count grew ('Addition') or not ('Overwrite'). -/
def book_add (h : OrderbookHalf) (order : Order) : OrderbookHalf × AddResponse :=
  let n_orders := h.n_orders
  let orders1 := dictSet h.orders order.tid order
  let h1 := buildLob { h with orders := orders1, n_orders := (orders1.length : Int) }
  if n_orders ≠ h1.n_orders then (h1, AddResponse.Addition) else (h1, AddResponse.Overwrite)

/-- `Orderbook_half.book_del(order)`: delete the owner's resting order if
present (checking the trader id first), else leave the book unchanged. -/
def book_del (h : OrderbookHalf) (order : Order) : OrderbookHalf :=
  if (h.orders.lookup order.tid).isSome then
    let orders1 := dictDel h.orders order.tid
    buildLob { h with orders := orders1, n_orders := (orders1.length : Int) }
  else h

/-- `Orderbook_half.delete_best`: consume one unit at the cached best price,
returning the new state and the owner of the removed order (the trade
counterparty).  `none` models the `KeyError`/`IndexError` the Python raises
when `self.best_price` is `None` or stale (never happens in reachable
states).  Note the final `self.build_lob()` recomputes `best_price` from the
remaining orders, overwriting the intermediate assignments (including the
`worstprice` stub written when the side just became empty). -/
def delete_best (h : OrderbookHalf) : Option (OrderbookHalf × String) :=
  match h.best_price with
  | none => none
  | some bp =>
    match ordersAtPrice bp h.orders with
    | [] => none
    | o0 :: _rest =>
      let best_price_qty := qtyAtPrice bp h.orders
      let best_price_counterparty := o0.tid
      if best_price_qty = 1 then
        let orders1 := dictDel h.orders best_price_counterparty
        let n1 := h.n_orders - 1
        let h1 :=
          if n1 > 0 then
            { h with orders := orders1, n_orders := n1,
                     best_price :=
                       (match h.booktype with
                        | Side.Bid => ((pricesOf h.orders).filter (fun q => q ≠ bp)).max?
                        | Side.Ask => ((pricesOf h.orders).filter (fun q => q ≠ bp)).min?),
                     lob_depth := (((pricesOf h.orders).dedup.filter (fun q => q ≠ bp)).length : Int) }
          else
            { h with orders := orders1, n_orders := n1,
                     best_price := some h.worstprice, lob_depth := 0 }
        some (buildLob h1, best_price_counterparty)
      else
        let orders1 := dictDel h.orders best_price_counterparty
        let h1 := { h with orders := orders1, n_orders := h.n_orders - 1 }
        some (buildLob h1, best_price_counterparty)

/-- The exchange (classes `Orderbook` and `Exchange`): both sides, the
append-only tape, and the monotonic quote-id counter. -/
structure Exchange where
  bids : OrderbookHalf
  asks : OrderbookHalf
  tape : List TapeRec
  quote_id : Int
deriving DecidableEq, Repr

/-- `Orderbook.__init__`: bid side with worstprice `bse_sys_minprice`, ask
side with worstprice `bse_sys_maxprice`, empty tape, quote id 0. -/
def initExchange : Exchange :=
  { bids := mkHalf Side.Bid bse_sys_minprice,
    asks := mkHalf Side.Ask bse_sys_maxprice,
    tape := [], quote_id := 0 }

/-- `Exchange.add_order(order)`: assign the next quote id, route the order to
the matching side's `book_add`, then re-read that side's best price and owner
from the freshly rebuilt `lob_anon`/`lob` (`lob_anon[-1]` for bids,
`lob_anon[0]` for asks; the side is non-empty, so the Python indexing cannot
fail).  Returns the new exchange, the assigned id, and the add response. -/
def add_order (e : Exchange) (order : Order) : Exchange × Int × AddResponse :=
  let order1 := { order with qid := e.quote_id }
  let quote_id1 := order1.qid + 1
  match order.otype with
  | Side.Bid =>
    let bids1 := (book_add e.bids order1).1
    let response := (book_add e.bids order1).2
    let best_price := ((lobAnon bids1.orders).getLast?).map (fun x => x.1)
    let best_tid := best_price.bind
      (fun bp => ((ordersAtPrice bp bids1.orders).head?).map (fun o => o.tid))
    let bids2 := { bids1 with best_price := best_price, best_tid := best_tid }
    ({ e with bids := bids2, quote_id := quote_id1 }, order1.qid, response)
  | Side.Ask =>
    let asks1 := (book_add e.asks order1).1
    let response := (book_add e.asks order1).2
    let best_price := ((lobAnon asks1.orders).head?).map (fun x => x.1)
    let best_tid := best_price.bind
      (fun bp => ((ordersAtPrice bp asks1.orders).head?).map (fun o => o.tid))
    let asks2 := { asks1 with best_price := best_price, best_tid := best_tid }
    ({ e with asks := asks2, quote_id := quote_id1 }, order1.qid, response)

/-- `Exchange.del_order(time, order)`: route the deletion to the matching
side's `book_del`, re-record that side's best price/owner (`None` when the
side is now empty), and append a Cancel record to the tape. -/
def del_order (e : Exchange) (time : ℚ) (order : Order) : Exchange :=
  match order.otype with
  | Side.Bid =>
    let bids1 := book_del e.bids order
    let bids2 :=
      if bids1.n_orders > 0 then
        let best_price := ((lobAnon bids1.orders).getLast?).map (fun x => x.1)
        { bids1 with best_price := best_price,
                     best_tid := best_price.bind
                       (fun bp => ((ordersAtPrice bp bids1.orders).head?).map (fun o => o.tid)) }
      else
        { bids1 with best_price := none, best_tid := none }
    { e with bids := bids2, tape := e.tape ++ [TapeRec.cancel time order] }
  | Side.Ask =>
    let asks1 := book_del e.asks order
    let asks2 :=
      if asks1.n_orders > 0 then
        let best_price := ((lobAnon asks1.orders).head?).map (fun x => x.1)
        { asks1 with best_price := best_price,
                     best_tid := best_price.bind
                       (fun bp => ((ordersAtPrice bp asks1.orders).head?).map (fun o => o.tid)) }
      else
        { asks1 with best_price := none, best_tid := none }
    { e with asks := asks2, tape := e.tape ++ [TapeRec.cancel time order] }

/-- `Exchange.process_order2(time, order)`: admit the order via `add_order`
(overwriting any previous order from the same trader), then re-read both
bests; if the incoming side crosses the opposite best while the opposite side
is non-empty, record the opposite best owner as counterparty at the opposite
best price, `delete_best` on the crossed side then on the incoming side,
append and return the Trade record; otherwise the order rests and the result
trade is `none`.  The outer `Option` models the `TypeError` the Python would
raise if a present best compared against `None` (unreachable in well-formed
states). -/
def process_order2 (e : Exchange) (time : ℚ) (order : Order) :
    Option (Exchange × Option TapeRec) :=
  let e1 := (add_order e order).1
  let best_ask := e1.asks.best_price
  let best_ask_tid := e1.asks.best_tid
  let best_bid := e1.bids.best_price
  let best_bid_tid := e1.bids.best_tid
  match order.otype with
  | Side.Bid =>
    if e1.asks.n_orders > 0 then
      match best_bid, best_ask with
      | some bb, some ba =>
        if bb ≥ ba then
          -- bid lifts the best ask
          let counterparty := best_ask_tid
          let price := ba
          match delete_best e1.asks with
          | none => none
          | some (asks2, _cp1) =>
            match delete_best { e1 with asks := asks2 }.bids with
            | none => none
            | some (bids2, _cp2) =>
              let e2 := { e1 with asks := asks2, bids := bids2 }
              match counterparty with
              | some cp =>
                let transaction_record := TapeRec.trade time price cp order.tid order.qty
                some ({ e2 with tape := e2.tape ++ [transaction_record] },
                      some transaction_record)
              | none => some (e2, none)
        else some (e1, none)
      | _, _ => none
    else some (e1, none)
  | Side.Ask =>
    if e1.bids.n_orders > 0 then
      match best_bid, best_ask with
      | some bb, some ba =>
        if ba ≤ bb then
          -- ask hits the best bid
          let counterparty := best_bid_tid
          let price := bb
          match delete_best e1.bids with
          | none => none
          | some (bids2, _cp1) =>
            match delete_best { e1 with bids := bids2 }.asks with
            | none => none
            | some (asks2, _cp2) =>
              let e2 := { e1 with bids := bids2, asks := asks2 }
              match counterparty with
              | some cp =>
                let transaction_record := TapeRec.trade time price cp order.tid order.qty
                some ({ e2 with tape := e2.tape ++ [transaction_record] },
                      some transaction_record)
              | none => some (e2, none)
        else some (e1, none)
      | _, _ => none
    else some (e1, none)

/-! ### Association-list (Python dict) lemmas -/

theorem mem_dictSet {l : List (String × Order)} {k : String} {v : Order} {x : String × Order}
    (hx : x ∈ dictSet l k v) : x = (k, v) ∨ x ∈ l := by
  induction l with
  | nil => simpa [dictSet] using hx
  | cons e rest ih =>
    by_cases hek : e.1 = k
    · simp only [dictSet, if_pos hek] at hx
      rcases List.mem_cons.1 hx with hx1 | hx1
      · exact Or.inl hx1
      · exact Or.inr (List.mem_cons_of_mem _ hx1)
    · simp only [dictSet, if_neg hek] at hx
      rcases List.mem_cons.1 hx with hx1 | hx1
      · exact Or.inr (by simp [hx1])
      · rcases ih hx1 with h | h
        · exact Or.inl h
        · exact Or.inr (List.mem_cons_of_mem _ h)

theorem mem_dictSet_of_ne {l : List (String × Order)} {k : String} {v : Order}
    {x : String × Order} (hx : x ∈ dictSet l k v) (hne : x.1 ≠ k) : x ∈ l := by
  rcases mem_dictSet hx with h | h
  · exact absurd (by simp [h]) hne
  · exact h

theorem keys_dictSet (l : List (String × Order)) (k : String) (v : Order) :
    ((dictSet l k v).map (fun e => e.1)) = l.map (fun e => e.1) ∨
    ((dictSet l k v).map (fun e => e.1)) = l.map (fun e => e.1) ++ [k] := by
  induction l with
  | nil => simp [dictSet]
  | cons e rest ih =>
    by_cases hek : e.1 = k
    · left; simp [dictSet, if_pos hek, hek]
    · rcases ih with h | h
      · left; simp [dictSet, if_neg hek, h]
      · right; simp [dictSet, if_neg hek, h]

theorem nodup_keys_dictSet {l : List (String × Order)} {k : String} {v : Order}
    (hl : (l.map (fun e => e.1)).Nodup) : ((dictSet l k v).map (fun e => e.1)).Nodup := by
  induction l with
  | nil => simp [dictSet]
  | cons e rest ih =>
    rw [List.map_cons, List.nodup_cons] at hl
    by_cases hek : e.1 = k
    · rw [show dictSet (e :: rest) k v = (k, v) :: rest from by simp [dictSet, if_pos hek]]
      rw [List.map_cons, List.nodup_cons]
      exact ⟨by rw [← hek]; exact hl.1, hl.2⟩
    · rw [show dictSet (e :: rest) k v = e :: dictSet rest k v from by simp [dictSet, if_neg hek]]
      rw [List.map_cons, List.nodup_cons]
      refine ⟨?_, ih hl.2⟩
      intro hmem
      rcases List.mem_map.1 hmem with ⟨x, hx, hx1⟩
      rcases mem_dictSet hx with h | h
      · exact hek (by rw [← hx1, h])
      · exact hl.1 (List.mem_map.2 ⟨x, h, hx1⟩)

theorem mem_dictDel {l : List (String × Order)} {k : String} {x : String × Order} :
    x ∈ dictDel l k ↔ x ∈ l ∧ x.1 ≠ k := by
  simp [dictDel, List.mem_filter]

theorem nodup_keys_dictDel {l : List (String × Order)} {k : String}
    (hl : (l.map (fun e => e.1)).Nodup) : ((dictDel l k).map (fun e => e.1)).Nodup := by
  induction l with
  | nil => simp [dictDel]
  | cons e rest ih =>
    rw [List.map_cons, List.nodup_cons] at hl
    by_cases hek : e.1 = k
    · rw [show dictDel (e :: rest) k = dictDel rest k from by simp [dictDel, hek]]
      exact ih hl.2
    · rw [show dictDel (e :: rest) k = e :: dictDel rest k from by simp [dictDel, hek]]
      rw [List.map_cons, List.nodup_cons]
      refine ⟨?_, ih hl.2⟩
      intro hmem
      rcases List.mem_map.1 hmem with ⟨x, hx, hx1⟩
      exact hl.1 (List.mem_map.2 ⟨x, (mem_dictDel.1 hx).1, hx1⟩)

theorem length_dictDel_of_mem {l : List (String × Order)} {k : String}
    (hl : (l.map (fun e => e.1)).Nodup) (hk : k ∈ l.map (fun e => e.1)) :
    (dictDel l k).length + 1 = l.length := by
  induction l with
  | nil => simp at hk
  | cons e rest ih =>
    rw [List.map_cons, List.nodup_cons] at hl
    by_cases hek : e.1 = k
    · rw [show dictDel (e :: rest) k = dictDel rest k from by simp [dictDel, hek]]
      have : dictDel rest k = rest := by
        apply List.filter_eq_self.2
        intro x hx
        simp only [ne_eq, decide_eq_true_eq]
        intro hxk
        have hmem : x.1 ∈ rest.map (fun e => e.1) := List.mem_map.2 ⟨x, hx, rfl⟩
        rw [hxk, ← hek] at hmem
        exact hl.1 hmem
      simp [this]
    · rw [show dictDel (e :: rest) k = e :: dictDel rest k from by simp [dictDel, hek]]
      have hk' : k ∈ rest.map (fun e => e.1) := by
        rcases List.mem_cons.1 hk with h | h
        · exact absurd h.symm hek
        · exact h
      simp only [List.length_cons]
      rw [← ih hl.2 hk']

/-! ### Insertion-sort lemmas -/

theorem mem_insertAsc {x a : Int} {l : List Int} : x ∈ insertAsc a l ↔ x = a ∨ x ∈ l := by
  induction l with
  | nil => simp [insertAsc]
  | cons y ys ih =>
    by_cases hay : a ≤ y
    · simp [insertAsc, if_pos hay]
    · simp only [insertAsc, if_neg hay, List.mem_cons, ih]
      tauto

theorem mem_sortAsc {x : Int} {l : List Int} : x ∈ sortAsc l ↔ x ∈ l := by
  induction l with
  | nil => simp [sortAsc]
  | cons y ys ih =>
    show x ∈ insertAsc y (sortAsc ys) ↔ _
    rw [mem_insertAsc, ih]
    simp

theorem sorted_insertAsc {a : Int} {l : List Int} (hl : l.Sorted (· ≤ ·)) :
    (insertAsc a l).Sorted (· ≤ ·) := by
  induction l with
  | nil => simp [insertAsc]
  | cons y ys ih =>
    rw [List.sorted_cons] at hl
    by_cases hay : a ≤ y
    · rw [show insertAsc a (y :: ys) = a :: y :: ys from by simp [insertAsc, if_pos hay]]
      rw [List.sorted_cons]
      refine ⟨?_, List.sorted_cons.2 hl⟩
      intro b hb
      rcases List.mem_cons.1 hb with h | h
      · exact h ▸ hay
      · exact le_trans hay (hl.1 b h)
    · rw [show insertAsc a (y :: ys) = y :: insertAsc a ys from by simp [insertAsc, if_neg hay]]
      rw [List.sorted_cons]
      refine ⟨?_, ih hl.2⟩
      intro b hb
      rcases mem_insertAsc.1 hb with h | h
      · exact h ▸ le_of_not_le hay
      · exact hl.1 b h

theorem sorted_sortAsc (l : List Int) : (sortAsc l).Sorted (· ≤ ·) := by
  induction l with
  | nil => simp [sortAsc]
  | cons y ys ih => exact sorted_insertAsc ih

theorem getLast?_mem {α : Type} {l : List α} {b : α} (h : l.getLast? = some b) : b ∈ l := by
  induction l with
  | nil => simp at h
  | cons y ys ih =>
    cases ys with
    | nil => simp_all
    | cons z zs =>
      rw [List.getLast?_cons_cons] at h
      exact List.mem_cons_of_mem _ (ih h)

theorem sorted_le_getLast {l : List Int} {b : Int} (hs : l.Sorted (· ≤ ·))
    (hb : l.getLast? = some b) : ∀ a ∈ l, a ≤ b := by
  induction l with
  | nil => simp at hb
  | cons y ys ih =>
    rw [List.sorted_cons] at hs
    intro a ha
    cases ys with
    | nil =>
      simp only [List.getLast?_singleton, Option.some.injEq] at hb
      simp only [List.mem_singleton] at ha
      simp [ha, hb]
    | cons z zs =>
      rw [List.getLast?_cons_cons] at hb
      rcases List.mem_cons.1 ha with h | h
      · have hbmem : b ∈ z :: zs := getLast?_mem hb
        exact h ▸ le_trans (le_refl y) (hs.1 b hbmem)
      · exact ih hs.2 hb a h

theorem sorted_head_le {l : List Int} {b : Int} (hs : l.Sorted (· ≤ ·))
    (hb : l.head? = some b) : ∀ a ∈ l, b ≤ a := by
  cases l with
  | nil => simp at hb
  | cons y ys =>
    rw [List.head?_cons, Option.some.injEq] at hb
    rw [List.sorted_cons] at hs
    intro a ha
    rcases List.mem_cons.1 ha with h | h
    · simp [h, hb]
    · exact hb ▸ hs.1 a h

/-! ### Characterization of the recorded best price / best tid -/

theorem sortedPrices_mem {p : Int} {orders : List (String × Order)} :
    p ∈ sortedPrices orders ↔ p ∈ pricesOf orders := by
  rw [sortedPrices, mem_sortAsc, List.mem_dedup]

theorem sortedPrices_eq_nil_iff {orders : List (String × Order)} :
    sortedPrices orders = [] ↔ orders = [] := by
  constructor
  · intro h
    cases orders with
    | nil => rfl
    | cons e rest =>
      exfalso
      have : e.2.price ∈ sortedPrices (e :: rest) :=
        sortedPrices_mem.2 (by simp [pricesOf])
      simp [h] at this
  · intro h; simp [h, sortedPrices, pricesOf, sortAsc]

theorem bestFromAnon_eq_getLast_sorted (orders : List (String × Order)) :
    bestFromAnon Side.Bid orders = (sortedPrices orders).getLast? := by
  rw [bestFromAnon, lobAnon, List.getLast?_map]
  cases (sortedPrices orders).getLast? <;> simp

theorem bestFromAnon_eq_head_sorted (orders : List (String × Order)) :
    bestFromAnon Side.Ask orders = (sortedPrices orders).head? := by
  rw [bestFromAnon, lobAnon, List.head?_map]
  cases (sortedPrices orders).head? <;> simp

theorem bestFromAnon_eq_none_iff {bt : Side} {orders : List (String × Order)} :
    bestFromAnon bt orders = none ↔ orders = [] := by
  cases bt with
  | Bid =>
    rw [bestFromAnon_eq_getLast_sorted, ← sortedPrices_eq_nil_iff]
    cases hsp : sortedPrices orders with
    | nil => simp
    | cons y ys =>
      simp only [iff_false_intro (List.cons_ne_nil y ys), iff_false]
      intro hlast
      have : (y :: ys).getLast?.isSome = true :=
        List.getLast?_isSome.2 (List.cons_ne_nil y ys)
      rw [hlast] at this
      simp at this
  | Ask =>
    rw [bestFromAnon_eq_head_sorted, ← sortedPrices_eq_nil_iff]
    cases hsp : sortedPrices orders <;> simp

theorem bestFromAnon_mem {bt : Side} {orders : List (String × Order)} {b : Int}
    (h : bestFromAnon bt orders = some b) : b ∈ pricesOf orders := by
  cases bt with
  | Bid =>
    rw [bestFromAnon_eq_getLast_sorted] at h
    exact sortedPrices_mem.1 (getLast?_mem h)
  | Ask =>
    rw [bestFromAnon_eq_head_sorted] at h
    exact sortedPrices_mem.1 (List.mem_of_mem_head? h)

theorem bestFromAnon_bid_ub {orders : List (String × Order)} {b : Int}
    (h : bestFromAnon Side.Bid orders = some b) : ∀ p ∈ pricesOf orders, p ≤ b := by
  rw [bestFromAnon_eq_getLast_sorted] at h
  intro p hp
  exact sorted_le_getLast (sorted_sortAsc _) h p (sortedPrices_mem.2 hp)

theorem bestFromAnon_ask_lb {orders : List (String × Order)} {b : Int}
    (h : bestFromAnon Side.Ask orders = some b) : ∀ p ∈ pricesOf orders, b ≤ p := by
  rw [bestFromAnon_eq_head_sorted] at h
  intro p hp
  exact sorted_head_le (sorted_sortAsc _) h p (sortedPrices_mem.2 hp)

theorem ordersAtPrice_ne_nil {b : Int} {orders : List (String × Order)}
    (h : b ∈ pricesOf orders) : ordersAtPrice b orders ≠ [] := by
  rcases List.mem_map.1 h with ⟨e, he, hep⟩
  intro hnil
  have : e.2 ∈ ordersAtPrice b orders :=
    List.mem_map.2 ⟨e, List.mem_filter.2 ⟨he, by simp [hep]⟩, rfl⟩
  simp [hnil] at this

theorem mem_pricesOf {p : Int} {l : List (String × Order)} :
    p ∈ pricesOf l ↔ ∃ x ∈ l, x.2.price = p := by
  simp [pricesOf]

theorem mem_ordersAtPrice {p : Int} {l : List (String × Order)} {o : Order}
    (h : o ∈ ordersAtPrice p l) : o.price = p ∧ ∃ y ∈ l, y.2 = o := by
  rcases List.mem_map.1 h with ⟨y, hy, hyo⟩
  rcases List.mem_filter.1 hy with ⟨hyl, hyp⟩
  refine ⟨?_, y, hyl, hyo⟩
  rw [← hyo]
  simpa using hyp

/-! ### Well-formedness of book halves and the exchange -/

/-- Consistency of the stored bookkeeping fields of a half with its `orders`
dict: `n_orders` counts the orders, dict keys are unique and equal the stored
order's trader id, and the cached best price/owner agree with what
`build_lob` derives.  Every half the source constructs satisfies this (every
mutator either ends in `build_lob` or rewrites the cache with the same
value). -/
def HalfWF (h : OrderbookHalf) : Prop :=
  h.n_orders = (h.orders.length : Int) ∧
  ((h.orders.map (fun e => e.1)).Nodup) ∧
  (∀ x ∈ h.orders, x.2.tid = x.1) ∧
  h.best_price = bestFromAnon h.booktype h.orders ∧
  h.best_tid = bestTidFromLob h.booktype h.orders

instance (h : OrderbookHalf) : Decidable (HalfWF h) := by
  unfold HalfWF; infer_instance

/-- Well-formedness of the whole exchange: both halves are well-formed and
tagged with their side. -/
def ExchWF (e : Exchange) : Prop :=
  HalfWF e.bids ∧ HalfWF e.asks ∧
  e.bids.booktype = Side.Bid ∧ e.asks.booktype = Side.Ask

instance (e : Exchange) : Decidable (ExchWF e) := by
  unfold ExchWF; infer_instance

theorem book_add_fst (h : OrderbookHalf) (o : Order) :
    (book_add h o).1 =
      buildLob { h with orders := dictSet h.orders o.tid o,
                        n_orders := ((dictSet h.orders o.tid o).length : Int) } := by
  unfold book_add
  dsimp only
  split <;> rfl

theorem HalfWF_book_add {h : OrderbookHalf} {o : Order} (hwf : HalfWF h) :
    HalfWF (book_add h o).1 := by
  rw [book_add_fst]
  refine ⟨rfl, nodup_keys_dictSet hwf.2.1, ?_, rfl, rfl⟩
  intro x hx
  rcases mem_dictSet hx with h1 | h1
  · simp [h1]
  · exact hwf.2.2.1 x h1

theorem HalfWF_book_del {h : OrderbookHalf} {o : Order} (hwf : HalfWF h) :
    HalfWF (book_del h o) := by
  unfold book_del
  split
  · exact ⟨rfl, nodup_keys_dictDel hwf.2.1,
      fun x hx => hwf.2.2.1 x (mem_dictDel.1 hx).1, rfl, rfl⟩
  · exact hwf

theorem book_del_booktype (h : OrderbookHalf) (o : Order) :
    (book_del h o).booktype = h.booktype := by
  unfold book_del; split <;> rfl

theorem book_del_worstprice (h : OrderbookHalf) (o : Order) :
    (book_del h o).worstprice = h.worstprice := by
  unfold book_del; split <;> rfl

theorem book_del_orders_sub {h : OrderbookHalf} {o : Order} :
    ∀ x ∈ (book_del h o).orders, x ∈ h.orders := by
  unfold book_del
  split
  · intro x hx; exact (mem_dictDel.1 hx).1
  · intro x hx; exact hx

/-- Functional characterization of `delete_best` on a well-formed half whose
cached best price is present: it removes the FIFO-head order at the best
price (returning its owner) and the final `build_lob` re-derives the cached
best fields from the remaining orders. -/
theorem delete_best_some {h : OrderbookHalf} (hwf : HalfWF h) {bp : Int}
    (hbp : h.best_price = some bp) :
    ∃ o0 rest h', ordersAtPrice bp h.orders = o0 :: rest ∧
      delete_best h = some (h', o0.tid) ∧
      h'.orders = dictDel h.orders o0.tid ∧
      h'.booktype = h.booktype ∧
      h'.worstprice = h.worstprice ∧
      HalfWF h' := by
  have hmem : bp ∈ pricesOf h.orders := by
    have := hwf.2.2.2.1
    rw [hbp] at this
    exact bestFromAnon_mem this.symm
  rcases hlev : ordersAtPrice bp h.orders with _ | ⟨o0, rest⟩
  · exact absurd hlev (ordersAtPrice_ne_nil hmem)
  have ho0 : o0.price = bp ∧ ∃ y ∈ h.orders, y.2 = o0 :=
    mem_ordersAtPrice (by rw [hlev]; exact List.mem_cons_self o0 rest)
  rcases ho0.2 with ⟨y, hy, hyo⟩
  have hkey : o0.tid ∈ h.orders.map (fun e => e.1) := by
    have := hwf.2.2.1 y hy
    rw [hyo] at this
    exact List.mem_map.2 ⟨y, hy, this.symm⟩
  have hlen : (dictDel h.orders o0.tid).length + 1 = h.orders.length :=
    length_dictDel_of_mem hwf.2.1 hkey
  have hn : h.n_orders - 1 = ((dictDel h.orders o0.tid).length : Int) := by
    rw [hwf.1, ← hlen]; push_cast; ring
  have hwf' : ∀ g : OrderbookHalf, g.orders = dictDel h.orders o0.tid →
      g.booktype = h.booktype → g.n_orders = h.n_orders - 1 →
      g.best_price = bestFromAnon g.booktype g.orders →
      g.best_tid = bestTidFromLob g.booktype g.orders → HalfWF g := by
    intro g hgo hgb hgn hgbp hgbt
    refine ⟨by rw [hgn, hgo, hn], ?_, ?_, hgbp, hgbt⟩
    · rw [hgo]; exact nodup_keys_dictDel hwf.2.1
    · intro x hx
      rw [hgo] at hx
      exact hwf.2.2.1 x (mem_dictDel.1 hx).1
  unfold delete_best
  rw [hbp]
  simp only [hlev]
  by_cases hq : qtyAtPrice bp h.orders = 1
  · rw [if_pos hq]
    by_cases hn1 : h.n_orders - 1 > 0
    · rw [if_pos hn1]
      refine ⟨o0, rest, _, rfl, rfl, rfl, rfl, rfl, ?_⟩
      exact hwf' _ rfl rfl rfl rfl rfl
    · rw [if_neg hn1]
      refine ⟨o0, rest, _, rfl, rfl, rfl, rfl, rfl, ?_⟩
      exact hwf' _ rfl rfl rfl rfl rfl
  · rw [if_neg hq]
    refine ⟨o0, rest, _, rfl, rfl, rfl, rfl, rfl, ?_⟩
    exact hwf' _ rfl rfl rfl rfl rfl

theorem pricesOf_mono {l' l : List (String × Order)} (hsub : ∀ x ∈ l', x ∈ l) :
    ∀ p ∈ pricesOf l', p ∈ pricesOf l := by
  intro p hp
  rcases mem_pricesOf.1 hp with ⟨x, hx, hxp⟩
  exact mem_pricesOf.2 ⟨x, hsub x hx, hxp⟩

theorem halfwf_pos_iff {h : OrderbookHalf} (hwf : HalfWF h) :
    h.n_orders > 0 ↔ h.orders ≠ [] := by
  rw [hwf.1]
  constructor
  · intro hpos hnil
    rw [hnil] at hpos
    simp at hpos
  · intro hne
    have : h.orders.length ≠ 0 := fun h0 => hne (List.length_eq_zero.1 h0)
    omega

theorem halfwf_best_none_iff {h : OrderbookHalf} (hwf : HalfWF h) :
    h.best_price = none ↔ h.orders = [] := by
  rw [hwf.2.2.2.1]
  exact bestFromAnon_eq_none_iff

/-! ### Exchange-level characterizations -/

/-- The book is uncrossed: when both cached bests are present, the best bid
does not exceed the best ask. -/
def Uncrossed (e : Exchange) : Prop :=
  ∀ bb ba : Int, e.bids.best_price = some bb → e.asks.best_price = some ba → bb ≤ ba

theorem add_order_bid_spec {e : Exchange} {o : Order} (ho : o.otype = Side.Bid) :
    (add_order e o).1.asks = e.asks ∧
    (add_order e o).1.tape = e.tape ∧
    (add_order e o).1.bids.orders = dictSet e.bids.orders o.tid { o with qid := e.quote_id } ∧
    (add_order e o).1.bids.booktype = e.bids.booktype ∧
    (add_order e o).1.bids.worstprice = e.bids.worstprice ∧
    (add_order e o).1.bids.n_orders = ((add_order e o).1.bids.orders.length : Int) ∧
    (add_order e o).1.bids.best_price = bestFromAnon Side.Bid (add_order e o).1.bids.orders ∧
    (add_order e o).1.bids.best_tid = bestTidFromLob Side.Bid (add_order e o).1.bids.orders := by
  unfold add_order
  rw [ho]
  dsimp only
  rw [book_add_fst]
  exact ⟨rfl, rfl, rfl, rfl, rfl, rfl, rfl, rfl⟩

theorem add_order_ask_spec {e : Exchange} {o : Order} (ho : o.otype = Side.Ask) :
    (add_order e o).1.bids = e.bids ∧
    (add_order e o).1.tape = e.tape ∧
    (add_order e o).1.asks.orders = dictSet e.asks.orders o.tid { o with qid := e.quote_id } ∧
    (add_order e o).1.asks.booktype = e.asks.booktype ∧
    (add_order e o).1.asks.worstprice = e.asks.worstprice ∧
    (add_order e o).1.asks.n_orders = ((add_order e o).1.asks.orders.length : Int) ∧
    (add_order e o).1.asks.best_price = bestFromAnon Side.Ask (add_order e o).1.asks.orders ∧
    (add_order e o).1.asks.best_tid = bestTidFromLob Side.Ask (add_order e o).1.asks.orders := by
  unfold add_order
  rw [ho]
  dsimp only
  rw [book_add_fst]
  exact ⟨rfl, rfl, rfl, rfl, rfl, rfl, rfl, rfl⟩

theorem ExchWF_add_order {e : Exchange} {o : Order} (hwf : ExchWF e) :
    ExchWF (add_order e o).1 := by
  cases ho : o.otype with
  | Bid =>
    obtain ⟨hasks, -, horders, hbt, -, hn, hbp, hbtid⟩ := add_order_bid_spec (e := e) ho
    refine ⟨⟨hn, ?_, ?_, ?_, ?_⟩, hasks ▸ hwf.2.1, hbt.trans hwf.2.2.1, hasks ▸ hwf.2.2.2⟩
    · rw [horders]; exact nodup_keys_dictSet hwf.1.2.1
    · intro x hx
      rw [horders] at hx
      rcases mem_dictSet hx with h1 | h1
      · simp [h1]
      · exact hwf.1.2.2.1 x h1
    · rw [hbp, hbt.trans hwf.2.2.1]
    · rw [hbtid, hbt.trans hwf.2.2.1]
  | Ask =>
    obtain ⟨hbids, -, horders, hbt, -, hn, hbp, hbtid⟩ := add_order_ask_spec (e := e) ho
    refine ⟨hbids ▸ hwf.1, ⟨hn, ?_, ?_, ?_, ?_⟩, hbids ▸ hwf.2.2.1, hbt.trans hwf.2.2.2⟩
    · rw [horders]; exact nodup_keys_dictSet hwf.2.1.2.1
    · intro x hx
      rw [horders] at hx
      rcases mem_dictSet hx with h1 | h1
      · simp [h1]
      · exact hwf.2.1.2.2.1 x h1
    · rw [hbp, hbt.trans hwf.2.2.2]
    · rw [hbtid, hbt.trans hwf.2.2.2]

theorem del_order_pres {e : Exchange} {t : ℚ} {o : Order}
    (hwf : ExchWF e) (hunc : Uncrossed e) :
    ExchWF (del_order e t o) ∧ Uncrossed (del_order e t o) := by
  cases ho : o.otype with
  | Bid =>
    have hwf1 : HalfWF (book_del e.bids o) := HalfWF_book_del hwf.1
    have hbt1 : (book_del e.bids o).booktype = Side.Bid :=
      (book_del_booktype e.bids o).trans hwf.2.2.1
    unfold del_order
    rw [ho]
    dsimp only
    by_cases hpos : (book_del e.bids o).n_orders > 0
    · rw [if_pos hpos]
      have hwf2 : HalfWF { book_del e.bids o with
          best_price := ((lobAnon (book_del e.bids o).orders).getLast?).map (fun x => x.1),
          best_tid := (((lobAnon (book_del e.bids o).orders).getLast?).map (fun x => x.1)).bind
            (fun bp => ((ordersAtPrice bp (book_del e.bids o).orders).head?).map (fun o => o.tid)) } := by
        refine ⟨hwf1.1, hwf1.2.1, hwf1.2.2.1, ?_, ?_⟩
        · show _ = bestFromAnon (book_del e.bids o).booktype _
          rw [hbt1]; rfl
        · show _ = bestTidFromLob (book_del e.bids o).booktype _
          rw [hbt1]; rfl
      refine ⟨⟨hwf2, hwf.2.1, hbt1, hwf.2.2.2⟩, ?_⟩
      intro bb ba hbb hba
      have hbb' : bestFromAnon Side.Bid (book_del e.bids o).orders = some bb := hbb
      have hmem : bb ∈ pricesOf e.bids.orders :=
        pricesOf_mono book_del_orders_sub bb (bestFromAnon_mem hbb')
      have hne : e.bids.orders ≠ [] := by
        intro hnil; rw [hnil] at hmem; simp [pricesOf] at hmem
      rcases hbp : e.bids.best_price with _ | bbPre
      · exact absurd ((halfwf_best_none_iff hwf.1).1 hbp) hne
      · have hub : ∀ p ∈ pricesOf e.bids.orders, p ≤ bbPre := by
          have := hwf.1.2.2.2.1
          rw [hbp] at this
          exact bestFromAnon_bid_ub (hwf.2.2.1 ▸ this.symm)
        exact le_trans (hub bb hmem) (hunc bbPre ba hbp hba)
    · rw [if_neg hpos]
      have hnil : (book_del e.bids o).orders = [] := by
        by_contra hne
        exact hpos ((halfwf_pos_iff hwf1).2 hne)
      have hwf2 : HalfWF { book_del e.bids o with best_price := none, best_tid := none } := by
        refine ⟨hwf1.1, hwf1.2.1, hwf1.2.2.1, ?_, ?_⟩
        · show (none : Option Int) = bestFromAnon (book_del e.bids o).booktype _
          rw [bestFromAnon_eq_none_iff.2 hnil]
        · show (none : Option String) = bestTidFromLob (book_del e.bids o).booktype _
          rw [bestTidFromLob, bestFromAnon_eq_none_iff.2 hnil]
          rfl
      refine ⟨⟨hwf2, hwf.2.1, hbt1, hwf.2.2.2⟩, ?_⟩
      intro bb ba hbb _hba
      exact absurd hbb (by simp)
  | Ask =>
    have hwf1 : HalfWF (book_del e.asks o) := HalfWF_book_del hwf.2.1
    have hbt1 : (book_del e.asks o).booktype = Side.Ask :=
      (book_del_booktype e.asks o).trans hwf.2.2.2
    unfold del_order
    rw [ho]
    dsimp only
    by_cases hpos : (book_del e.asks o).n_orders > 0
    · rw [if_pos hpos]
      have hwf2 : HalfWF { book_del e.asks o with
          best_price := ((lobAnon (book_del e.asks o).orders).head?).map (fun x => x.1),
          best_tid := (((lobAnon (book_del e.asks o).orders).head?).map (fun x => x.1)).bind
            (fun bp => ((ordersAtPrice bp (book_del e.asks o).orders).head?).map (fun o => o.tid)) } := by
        refine ⟨hwf1.1, hwf1.2.1, hwf1.2.2.1, ?_, ?_⟩
        · show _ = bestFromAnon (book_del e.asks o).booktype _
          rw [hbt1]; rfl
        · show _ = bestTidFromLob (book_del e.asks o).booktype _
          rw [hbt1]; rfl
      refine ⟨⟨hwf.1, hwf2, hwf.2.2.1, hbt1⟩, ?_⟩
      intro bb ba hbb hba
      have hba' : bestFromAnon Side.Ask (book_del e.asks o).orders = some ba := hba
      have hmem : ba ∈ pricesOf e.asks.orders :=
        pricesOf_mono book_del_orders_sub ba (bestFromAnon_mem hba')
      have hne : e.asks.orders ≠ [] := by
        intro hnil; rw [hnil] at hmem; simp [pricesOf] at hmem
      rcases hbp : e.asks.best_price with _ | baPre
      · exact absurd ((halfwf_best_none_iff hwf.2.1).1 hbp) hne
      · have hlb : ∀ p ∈ pricesOf e.asks.orders, baPre ≤ p := by
          have := hwf.2.1.2.2.2.1
          rw [hbp] at this
          exact bestFromAnon_ask_lb (hwf.2.2.2 ▸ this.symm)
        exact le_trans (hunc bb baPre hbb hbp) (hlb ba hmem)
    · rw [if_neg hpos]
      have hnil : (book_del e.asks o).orders = [] := by
        by_contra hne
        exact hpos ((halfwf_pos_iff hwf1).2 hne)
      have hwf2 : HalfWF { book_del e.asks o with best_price := none, best_tid := none } := by
        refine ⟨hwf1.1, hwf1.2.1, hwf1.2.2.1, ?_, ?_⟩
        · show (none : Option Int) = bestFromAnon (book_del e.asks o).booktype _
          rw [bestFromAnon_eq_none_iff.2 hnil]
        · show (none : Option String) = bestTidFromLob (book_del e.asks o).booktype _
          rw [bestTidFromLob, bestFromAnon_eq_none_iff.2 hnil]
          rfl
      refine ⟨⟨hwf.1, hwf2, hwf.2.2.1, hbt1⟩, ?_⟩
      intro bb ba _hbb hba
      exact absurd hba (by simp)

theorem self_mem_dictSet (l : List (String × Order)) (k : String) (v : Order) :
    (k, v) ∈ dictSet l k v := by
  induction l with
  | nil => simp [dictSet]
  | cons e rest ih =>
    by_cases hek : e.1 = k
    · simp [dictSet, if_pos hek]
    · rw [show dictSet (e :: rest) k v = e :: dictSet rest k v from by simp [dictSet, if_neg hek]]
      exact List.mem_cons_of_mem _ ih

/-- In the crossing branch of `process_order2` for an incoming Bid (opposite
side non-empty and best bid `≥` best ask after admission), the call trades at
the best ask against the ask side's best owner, deletes the best order on
each side, and appends the Trade record to the tape. -/
theorem process_cross_bid {e : Exchange} {t : ℚ} {o : Order}
    (hwf : ExchWF e) (ho : o.otype = Side.Bid)
    {bb ba : Int}
    (hbb : (add_order e o).1.bids.best_price = some bb)
    (hba : (add_order e o).1.asks.best_price = some ba)
    (hn : (add_order e o).1.asks.n_orders > 0)
    (hcross : bb ≥ ba) :
    ∃ (e2 : Exchange) (oA oB : Order) (restB : List Order),
      (add_order e o).1.asks.best_tid = some oA.tid ∧
      process_order2 e t o = some (e2, some (TapeRec.trade t ba oA.tid o.tid o.qty)) ∧
      e2.tape = e.tape ++ [TapeRec.trade t ba oA.tid o.tid o.qty] ∧
      ordersAtPrice bb (add_order e o).1.bids.orders = oB :: restB ∧
      e2.bids.orders = dictDel (add_order e o).1.bids.orders oB.tid ∧
      e2.asks.orders = dictDel (add_order e o).1.asks.orders oA.tid ∧
      ExchWF e2 := by
  have he1 : ExchWF (add_order e o).1 := ExchWF_add_order hwf
  obtain ⟨oA, restA, asks2, hlevA, hdbA, hordA, hbtA, _hwpA, hwfA⟩ :=
    delete_best_some he1.2.1 hba
  obtain ⟨oB, restB, bids2, hlevB, hdbB, hordB, hbtB, _hwpB, hwfB⟩ :=
    delete_best_some he1.1 hbb
  have hfa : bestFromAnon (add_order e o).1.asks.booktype (add_order e o).1.asks.orders
      = some ba := by
    rw [← he1.2.1.2.2.2.1]; exact hba
  have hcp : (add_order e o).1.asks.best_tid = some oA.tid := by
    rw [he1.2.1.2.2.2.2, bestTidFromLob, hfa]
    simp [hlevA]
  refine ⟨{ bids := bids2, asks := asks2,
            tape := (add_order e o).1.tape ++ [TapeRec.trade t ba oA.tid o.tid o.qty],
            quote_id := (add_order e o).1.quote_id },
          oA, oB, restB, hcp, ?_, ?_, hlevB, hordB, hordA,
          hwfB, hwfA, hbtB.trans he1.2.2.1, hbtA.trans he1.2.2.2⟩
  · unfold process_order2
    rw [ho]
    dsimp only
    rw [if_pos hn, hbb, hba]
    dsimp only
    rw [if_pos hcross, hdbA]
    dsimp only
    rw [hdbB, hcp]
  · show (add_order e o).1.tape ++ _ = e.tape ++ _
    rw [(add_order_bid_spec ho).2.1]

/-- In the crossing branch of `process_order2` for an incoming Ask (opposite
side non-empty and best ask `≤` best bid after admission), the call trades at
the best bid against the bid side's best owner, deletes the best order on
each side, and appends the Trade record to the tape. -/
theorem process_cross_ask {e : Exchange} {t : ℚ} {o : Order}
    (hwf : ExchWF e) (ho : o.otype = Side.Ask)
    {bb ba : Int}
    (hbb : (add_order e o).1.bids.best_price = some bb)
    (hba : (add_order e o).1.asks.best_price = some ba)
    (hn : (add_order e o).1.bids.n_orders > 0)
    (hcross : ba ≤ bb) :
    ∃ (e2 : Exchange) (oB oA : Order) (restA : List Order),
      (add_order e o).1.bids.best_tid = some oB.tid ∧
      process_order2 e t o = some (e2, some (TapeRec.trade t bb oB.tid o.tid o.qty)) ∧
      e2.tape = e.tape ++ [TapeRec.trade t bb oB.tid o.tid o.qty] ∧
      ordersAtPrice ba (add_order e o).1.asks.orders = oA :: restA ∧
      e2.asks.orders = dictDel (add_order e o).1.asks.orders oA.tid ∧
      e2.bids.orders = dictDel (add_order e o).1.bids.orders oB.tid ∧
      ExchWF e2 := by
  have he1 : ExchWF (add_order e o).1 := ExchWF_add_order hwf
  obtain ⟨oB, restB, bids2, hlevB, hdbB, hordB, hbtB, _hwpB, hwfB⟩ :=
    delete_best_some he1.1 hbb
  obtain ⟨oA, restA, asks2, hlevA, hdbA, hordA, hbtA, _hwpA, hwfA⟩ :=
    delete_best_some he1.2.1 hba
  have hfb : bestFromAnon (add_order e o).1.bids.booktype (add_order e o).1.bids.orders
      = some bb := by
    rw [← he1.1.2.2.2.1]; exact hbb
  have hcp : (add_order e o).1.bids.best_tid = some oB.tid := by
    rw [he1.1.2.2.2.2, bestTidFromLob, hfb]
    simp [hlevB]
  refine ⟨{ bids := bids2, asks := asks2,
            tape := (add_order e o).1.tape ++ [TapeRec.trade t bb oB.tid o.tid o.qty],
            quote_id := (add_order e o).1.quote_id },
          oB, oA, restA, hcp, ?_, ?_, hlevA, hordA, hordB,
          hwfB, hwfA, hbtB.trans he1.2.2.1, hbtA.trans he1.2.2.2⟩
  · unfold process_order2
    rw [ho]
    dsimp only
    rw [if_pos hn, hbb, hba]
    dsimp only
    rw [if_pos hcross, hdbB]
    dsimp only
    rw [hdbA, hcp]
  · show (add_order e o).1.tape ++ _ = e.tape ++ _
    rw [(add_order_ask_spec ho).2.1]

theorem dictSet_ne_nil (l : List (String × Order)) (k : String) (v : Order) :
    dictSet l k v ≠ [] := by
  cases l with
  | nil => simp [dictSet]
  | cons e rest =>
    by_cases hek : e.1 = k <;> simp [dictSet, hek]

/-- One `process_order2` step preserves well-formedness and the uncrossed
invariant. -/
theorem process_order2_pres {e e' : Exchange} {t : ℚ} {o : Order} {tr : Option TapeRec}
    (hwf : ExchWF e) (hunc : Uncrossed e)
    (hp : process_order2 e t o = some (e', tr)) :
    ExchWF e' ∧ Uncrossed e' := by
  have he1 : ExchWF (add_order e o).1 := ExchWF_add_order hwf
  cases ho : o.otype with
  | Bid =>
    obtain ⟨hasks, _htape, horders, _hbt, _hwp, _hn1, _hbp1, _hbtid1⟩ :=
      add_order_bid_spec (e := e) ho
    by_cases hn : (add_order e o).1.asks.n_orders > 0
    · rcases hbaq : (add_order e o).1.asks.best_price with _ | ba
      · exact absurd ((halfwf_best_none_iff he1.2.1).1 hbaq)
          ((halfwf_pos_iff he1.2.1).1 hn)
      rcases hbbq : (add_order e o).1.bids.best_price with _ | bb
      · refine absurd ((halfwf_best_none_iff he1.1).1 hbbq) ?_
        rw [horders]
        exact dictSet_ne_nil _ _ _
      -- common fact: every pre-existing bid is at most the best ask
      have hEasks : e.asks.best_price = some ba := by rw [← hasks]; exact hbaq
      have hEb : ∀ y ∈ e.bids.orders, y.2.price ≤ ba := by
        intro y hy
        have hneE : e.bids.orders ≠ [] := by
          intro hnil; rw [hnil] at hy; simp at hy
        rcases hbpE : e.bids.best_price with _ | bbPre
        · exact absurd ((halfwf_best_none_iff hwf.1).1 hbpE) hneE
        · have hFA : bestFromAnon Side.Bid e.bids.orders = some bbPre := by
            have hh := hwf.1.2.2.2.1
            rw [hwf.2.2.1] at hh
            rw [← hh]; exact hbpE
          have h3 : y.2.price ≤ bbPre :=
            bestFromAnon_bid_ub hFA _ (mem_pricesOf.2 ⟨y, hy, rfl⟩)
          exact le_trans h3 (hunc bbPre ba hbpE hEasks)
      have hbbFA : bestFromAnon Side.Bid (add_order e o).1.bids.orders = some bb := by
        have hh := he1.1.2.2.2.1
        rw [he1.2.2.1] at hh
        rw [← hh]; exact hbbq
      have hbaFA : bestFromAnon Side.Ask (add_order e o).1.asks.orders = some ba := by
        have hh := he1.2.1.2.2.2.1
        rw [he1.2.2.2] at hh
        rw [← hh]; exact hbaq
      by_cases hcross : bb ≥ ba
      · obtain ⟨e2, oA, oB, restB, _hcp, hpeq, _htp2, hlevB, hordB2, hordA2, hwf2⟩ :=
          process_cross_bid hwf ho hbbq hbaq hn hcross
        rw [hpeq] at hp
        have he' : e2 = e' := congrArg Prod.fst (Option.some.inj hp)
        subst he'
        refine ⟨hwf2, ?_⟩
        intro bb' ba' hbb' hba'
        -- the surviving asks are all at least `ba`
        have hba'FA : bestFromAnon Side.Ask e2.asks.orders = some ba' := by
          have hh := hwf2.2.1.2.2.2.1
          rw [hwf2.2.2.2] at hh
          rw [← hh]; exact hba'
        have hbaLe : ba ≤ ba' := by
          have hmem : ba' ∈ pricesOf e2.asks.orders := bestFromAnon_mem hba'FA
          have hsub : ∀ x ∈ e2.asks.orders, x ∈ (add_order e o).1.asks.orders := by
            intro x hx
            rw [hordA2] at hx
            exact (mem_dictDel.1 hx).1
          exact bestFromAnon_ask_lb hbaFA _ (pricesOf_mono hsub _ hmem)
        -- the surviving bids are all at most `ba`
        have hbb'FA : bestFromAnon Side.Bid e2.bids.orders = some bb' := by
          have hh := hwf2.1.2.2.2.1
          rw [hwf2.2.2.1] at hh
          rw [← hh]; exact hbb'
        have hbbLe : bb' ≤ ba := by
          rcases mem_pricesOf.1 (bestFromAnon_mem hbb'FA) with ⟨x, hx, hxp⟩
          rw [hordB2] at hx
          rcases mem_dictDel.1 hx with ⟨hxA, hxne⟩
          have hxbb : x.2.price ≤ bb :=
            bestFromAnon_bid_ub hbbFA _ (mem_pricesOf.2 ⟨x, hxA, rfl⟩)
          rw [horders] at hxA
          rcases mem_dictSet hxA with h1 | h1
          · -- x is the freshly admitted bid
            by_cases heq : bb ≤ ba
            · rw [← hxp]; exact le_trans hxbb heq
            · -- strictly crossed: the admitted bid is the unique order at `bb`
              -- and is exactly the one `delete_best` removed, contradiction
              exfalso
              have hkey : ∀ y ∈ (add_order e o).1.bids.orders, y.2.price = bb → y.1 = o.tid := by
                intro y hy hyp
                rw [horders] at hy
                rcases mem_dictSet hy with h2 | h2
                · rw [h2]
                · have h3 := hEb y h2
                  rw [hyp] at h3
                  exact absurd h3 heq
              have hoBmem : oB ∈ ordersAtPrice bb (add_order e o).1.bids.orders := by
                rw [hlevB]; exact List.mem_cons_self _ _
              have hoB := mem_ordersAtPrice hoBmem
              obtain ⟨y, hyA, hy2⟩ := hoB.2
              have hytid : y.1 = o.tid := hkey y hyA (by rw [hy2]; exact hoB.1)
              have hoBo : oB.tid = o.tid := by
                have hkt := he1.1.2.2.1 y hyA
                rw [hy2] at hkt
                rw [hkt]
                exact hytid
              apply hxne
              rw [h1, hoBo]
          · -- x was already resting before admission
            rw [← hxp]; exact hEb x h1
        exact le_trans hbbLe hbaLe
      · -- admitted without crossing
        have hp2 := hp
        unfold process_order2 at hp2
        rw [ho] at hp2
        dsimp only at hp2
        rw [if_pos hn, hbbq, hbaq] at hp2
        dsimp only at hp2
        rw [if_neg hcross] at hp2
        have he' : (add_order e o).1 = e' := congrArg Prod.fst (Option.some.inj hp2)
        subst he'
        refine ⟨he1, ?_⟩
        intro bb' ba' hbb' hba'
        rw [hbbq] at hbb'
        rw [hbaq] at hba'
        have h1 : bb' = bb := Option.some.inj hbb'.symm
        have h2 : ba' = ba := Option.some.inj hba'.symm
        rw [h1, h2]
        exact le_of_not_le (fun hc => hcross hc)
    · -- opposite side empty: the order simply rests
      have hp2 := hp
      unfold process_order2 at hp2
      rw [ho] at hp2
      dsimp only at hp2
      rw [if_neg hn] at hp2
      have he' : (add_order e o).1 = e' := congrArg Prod.fst (Option.some.inj hp2)
      subst he'
      refine ⟨he1, ?_⟩
      intro bb' ba' _hbb' hba'
      exfalso
      have hnil : (add_order e o).1.asks.orders = [] := by
        by_contra hne
        exact hn ((halfwf_pos_iff he1.2.1).2 hne)
      rw [(halfwf_best_none_iff he1.2.1).2 hnil] at hba'
      cases hba'
  | Ask =>
    obtain ⟨hbids, _htape, horders, _hbt, _hwp, _hn1, _hbp1, _hbtid1⟩ :=
      add_order_ask_spec (e := e) ho
    by_cases hn : (add_order e o).1.bids.n_orders > 0
    · rcases hbbq : (add_order e o).1.bids.best_price with _ | bb
      · exact absurd ((halfwf_best_none_iff he1.1).1 hbbq)
          ((halfwf_pos_iff he1.1).1 hn)
      rcases hbaq : (add_order e o).1.asks.best_price with _ | ba
      · refine absurd ((halfwf_best_none_iff he1.2.1).1 hbaq) ?_
        rw [horders]
        exact dictSet_ne_nil _ _ _
      -- common fact: every pre-existing ask is at least the best bid
      have hEbids : e.bids.best_price = some bb := by rw [← hbids]; exact hbbq
      have hEa : ∀ y ∈ e.asks.orders, bb ≤ y.2.price := by
        intro y hy
        have hneE : e.asks.orders ≠ [] := by
          intro hnil; rw [hnil] at hy; simp at hy
        rcases hbpE : e.asks.best_price with _ | baPre
        · exact absurd ((halfwf_best_none_iff hwf.2.1).1 hbpE) hneE
        · have hFA : bestFromAnon Side.Ask e.asks.orders = some baPre := by
            have hh := hwf.2.1.2.2.2.1
            rw [hwf.2.2.2] at hh
            rw [← hh]; exact hbpE
          have h3 : baPre ≤ y.2.price :=
            bestFromAnon_ask_lb hFA _ (mem_pricesOf.2 ⟨y, hy, rfl⟩)
          exact le_trans (hunc bb baPre hEbids hbpE) h3
      have hbbFA : bestFromAnon Side.Bid (add_order e o).1.bids.orders = some bb := by
        have hh := he1.1.2.2.2.1
        rw [he1.2.2.1] at hh
        rw [← hh]; exact hbbq
      have hbaFA : bestFromAnon Side.Ask (add_order e o).1.asks.orders = some ba := by
        have hh := he1.2.1.2.2.2.1
        rw [he1.2.2.2] at hh
        rw [← hh]; exact hbaq
      by_cases hcross : ba ≤ bb
      · obtain ⟨e2, oB, oA, restA, _hcp, hpeq, _htp2, hlevA, hordA2, hordB2, hwf2⟩ :=
          process_cross_ask hwf ho hbbq hbaq hn hcross
        rw [hpeq] at hp
        have he' : e2 = e' := congrArg Prod.fst (Option.some.inj hp)
        subst he'
        refine ⟨hwf2, ?_⟩
        intro bb' ba' hbb' hba'
        -- the surviving bids are all at most `bb`
        have hbb'FA : bestFromAnon Side.Bid e2.bids.orders = some bb' := by
          have hh := hwf2.1.2.2.2.1
          rw [hwf2.2.2.1] at hh
          rw [← hh]; exact hbb'
        have hbbLe : bb' ≤ bb := by
          have hmem : bb' ∈ pricesOf e2.bids.orders := bestFromAnon_mem hbb'FA
          have hsub : ∀ x ∈ e2.bids.orders, x ∈ (add_order e o).1.bids.orders := by
            intro x hx
            rw [hordB2] at hx
            exact (mem_dictDel.1 hx).1
          exact bestFromAnon_bid_ub hbbFA _ (pricesOf_mono hsub _ hmem)
        -- the surviving asks are all at least `bb`
        have hba'FA : bestFromAnon Side.Ask e2.asks.orders = some ba' := by
          have hh := hwf2.2.1.2.2.2.1
          rw [hwf2.2.2.2] at hh
          rw [← hh]; exact hba'
        have hbaGe : bb ≤ ba' := by
          rcases mem_pricesOf.1 (bestFromAnon_mem hba'FA) with ⟨x, hx, hxp⟩
          rw [hordA2] at hx
          rcases mem_dictDel.1 hx with ⟨hxA, hxne⟩
          have hxba : ba ≤ x.2.price :=
            bestFromAnon_ask_lb hbaFA _ (mem_pricesOf.2 ⟨x, hxA, rfl⟩)
          rw [horders] at hxA
          rcases mem_dictSet hxA with h1 | h1
          · -- x is the freshly admitted ask
            by_cases heq : bb ≤ ba
            · rw [← hxp]; exact le_trans heq hxba
            · -- strictly crossed: the admitted ask is the unique order at `ba`
              exfalso
              have hkey : ∀ y ∈ (add_order e o).1.asks.orders, y.2.price = ba → y.1 = o.tid := by
                intro y hy hyp
                rw [horders] at hy
                rcases mem_dictSet hy with h2 | h2
                · rw [h2]
                · have h3 := hEa y h2
                  rw [hyp] at h3
                  exact absurd h3 heq
              have hoAmem : oA ∈ ordersAtPrice ba (add_order e o).1.asks.orders := by
                rw [hlevA]; exact List.mem_cons_self _ _
              have hoA := mem_ordersAtPrice hoAmem
              obtain ⟨y, hyA, hy2⟩ := hoA.2
              have hytid : y.1 = o.tid := hkey y hyA (by rw [hy2]; exact hoA.1)
              have hoAo : oA.tid = o.tid := by
                have hkt := he1.2.1.2.2.1 y hyA
                rw [hy2] at hkt
                rw [hkt]
                exact hytid
              apply hxne
              rw [h1, hoAo]
          · -- x was already resting before admission
            rw [← hxp]; exact hEa x h1
        exact le_trans hbbLe hbaGe
      · -- admitted without crossing
        have hp2 := hp
        unfold process_order2 at hp2
        rw [ho] at hp2
        dsimp only at hp2
        rw [if_pos hn, hbbq, hbaq] at hp2
        dsimp only at hp2
        rw [if_neg hcross] at hp2
        have he' : (add_order e o).1 = e' := congrArg Prod.fst (Option.some.inj hp2)
        subst he'
        refine ⟨he1, ?_⟩
        intro bb' ba' hbb' hba'
        rw [hbbq] at hbb'
        rw [hbaq] at hba'
        have h1 : bb' = bb := Option.some.inj hbb'.symm
        have h2 : ba' = ba := Option.some.inj hba'.symm
        rw [h1, h2]
        exact le_of_not_le (fun hc => hcross hc)
    · -- opposite side empty: the order simply rests
      have hp2 := hp
      unfold process_order2 at hp2
      rw [ho] at hp2
      dsimp only at hp2
      rw [if_neg hn] at hp2
      have he' : (add_order e o).1 = e' := congrArg Prod.fst (Option.some.inj hp2)
      subst he'
      refine ⟨he1, ?_⟩
      intro bb' ba' hbb' _hba'
      exfalso
      have hnil : (add_order e o).1.bids.orders = [] := by
        by_contra hne
        exact hn ((halfwf_pos_iff he1.1).2 hne)
      rw [(halfwf_best_none_iff he1.1).2 hnil] at hbb'
      cases hbb'

/-- Exchange states reachable from the fresh exchange by any sequence of
`process_order2` (order submission) and `del_order` (cancel) operations, as
driven by `market_session`. -/
inductive Reachable : Exchange → Prop where
  | init : Reachable initExchange
  | step_process {e e' : Exchange} {t : ℚ} {o : Order} {tr : Option TapeRec} :
      Reachable e → process_order2 e t o = some (e', tr) → Reachable e'
  | step_cancel {e : Exchange} (t : ℚ) (o : Order) :
      Reachable e → Reachable (del_order e t o)

theorem reachable_wf_uncrossed {e : Exchange} (hr : Reachable e) :
    ExchWF e ∧ Uncrossed e := by
  induction hr with
  | init =>
    refine ⟨by decide, ?_⟩
    intro bb ba hbb _hba
    simp [initExchange, mkHalf] at hbb
  | step_process _hre hp ih => exact process_order2_pres ih.1 ih.2 hp
  | step_cancel t o _hre ih => exact del_order_pres ih.1 ih.2

theorem reachable_wf {e : Exchange} (hr : Reachable e) : ExchWF e :=
  (reachable_wf_uncrossed hr).1

/-! ### Claim C1 -/

/-- C1: for every order handled by `process_order2`, if after the order is
admitted the opposite side is non-empty and the best bid crosses the best ask
(best bid ≥ best ask), the call returns a Trade record priced at the resting
(passive) side's best price, between the opposite side's best owner and the
incoming order's owner, and appends that record to the tape. -/
theorem claim_C1 (e : Exchange) (hwf : ExchWF e) (t : ℚ) (o : Order)
    {bb ba : Int}
    (hbb : (add_order e o).1.bids.best_price = some bb)
    (hba : (add_order e o).1.asks.best_price = some ba)
    (hcross : ba ≤ bb) :
    (o.otype = Side.Bid → (add_order e o).1.asks.n_orders > 0 →
      ∃ (e2 : Exchange) (cp : String),
        (add_order e o).1.asks.best_tid = some cp ∧
        process_order2 e t o = some (e2, some (TapeRec.trade t ba cp o.tid o.qty)) ∧
        e2.tape = e.tape ++ [TapeRec.trade t ba cp o.tid o.qty]) ∧
    (o.otype = Side.Ask → (add_order e o).1.bids.n_orders > 0 →
      ∃ (e2 : Exchange) (cp : String),
        (add_order e o).1.bids.best_tid = some cp ∧
        process_order2 e t o = some (e2, some (TapeRec.trade t bb cp o.tid o.qty)) ∧
        e2.tape = e.tape ++ [TapeRec.trade t bb cp o.tid o.qty]) := by
  constructor
  · intro ho hn
    obtain ⟨e2, oA, _oB, _restB, hcp, hpeq, htp2, _, _, _, _⟩ :=
      process_cross_bid hwf ho hbb hba hn hcross
    exact ⟨e2, oA.tid, hcp, hpeq, htp2⟩
  · intro ho hn
    obtain ⟨e2, oB, _oA, _restA, hcp, hpeq, htp2, _, _, _, _⟩ :=
      process_cross_ask hwf ho hbb hba hn hcross
    exact ⟨e2, oB.tid, hcp, hpeq, htp2⟩

/-- The resting ask of the C1 scenario: owner S01, price 50, quantity 1. -/
def c1ask : Order :=
  { tid := "S01", otype := Side.Ask, price := 50, qty := 1, time := 1, qid := 0 }

/-- The incoming bid of the C1 scenario: owner B01, price 60. -/
def c1bid : Order :=
  { tid := "B01", otype := Side.Bid, price := 60, qty := 1, time := 2, qid := 0 }

/-- The exchange after the C1 scenario's resting ask is processed. -/
def c1e1 : Exchange :=
  ((process_order2 initExchange 1 c1ask).getD (initExchange, none)).1

/-- The exchange after the C1 scenario's crossing bid is processed. -/
def c1e2 : Exchange :=
  ((process_order2 c1e1 2 c1bid).getD (initExchange, none)).1

/-- C1 witness: the spec scenario.  Bid book empty, ask book holds S01's Ask
at 50; submitting B01's Bid at 60 trades at 50 between S01 (passive) and B01
(aggressor), leaves both sides empty, and leaves exactly one tape record. -/
theorem claim_C1_witness :
    process_order2 c1e1 2 c1bid = some (c1e2, some (TapeRec.trade 2 50 "S01" "B01" 1)) ∧
    c1e2.bids.orders = [] ∧ c1e2.asks.orders = [] ∧
    c1e2.tape = [TapeRec.trade 2 50 "S01" "B01" 1] := by
  refine ⟨?_, by decide, by decide, by decide⟩
  obtain ⟨e2, cp, hcp, hpeq, _⟩ :=
    (@claim_C1 c1e1 (by decide) 2 c1bid 60 50 (by decide) (by decide) (by decide)).1
      (by decide) (by decide)
  have hcp50 : (add_order c1e1 c1bid).1.asks.best_tid = some "S01" := by decide
  rw [hcp50] at hcp
  have hcpv : cp = "S01" := (Option.some.inj hcp).symm
  subst hcpv
  have he2 : c1e2 = e2 := by
    show ((process_order2 c1e1 2 c1bid).getD (initExchange, none)).1 = e2
    rw [hpeq]
    rfl
  rw [hpeq, he2]
  rfl

/-! ### Claim C2 -/

/-- C2: uncrossed-book invariant.  For every exchange state reachable by a
sequence of `process_order2` and `del_order` (cancel) operations, after each
call has returned, if both sides are non-empty then the best bid price does
not exceed the best ask price. -/
theorem claim_C2 {e : Exchange} (hr : Reachable e)
    (hb : e.bids.n_orders > 0) (ha : e.asks.n_orders > 0) :
    ∃ bb ba : Int, e.bids.best_price = some bb ∧ e.asks.best_price = some ba ∧ bb ≤ ba := by
  obtain ⟨hwf, hunc⟩ := reachable_wf_uncrossed hr
  rcases hbb : e.bids.best_price with _ | bb
  · exact absurd ((halfwf_best_none_iff hwf.1).1 hbb) ((halfwf_pos_iff hwf.1).1 hb)
  rcases hba : e.asks.best_price with _ | ba
  · exact absurd ((halfwf_best_none_iff hwf.2.1).1 hba) ((halfwf_pos_iff hwf.2.1).1 ha)
  exact ⟨bb, ba, rfl, rfl, hunc bb ba hbb hba⟩

/-- A resting ask for the C2 witness. -/
def c2ask : Order :=
  { tid := "S01", otype := Side.Ask, price := 60, qty := 1, time := 1, qid := 0 }

/-- A resting (non-crossing) bid for the C2 witness. -/
def c2bid : Order :=
  { tid := "B01", otype := Side.Bid, price := 50, qty := 1, time := 2, qid := 0 }

/-- The exchange after the C2 witness ask rests. -/
def c2e1 : Exchange :=
  ((process_order2 initExchange 1 c2ask).getD (initExchange, none)).1

/-- The exchange after the C2 witness bid rests. -/
def c2e2 : Exchange :=
  ((process_order2 c2e1 2 c2bid).getD (initExchange, none)).1

/-- C2 witness: in the reachable state with bid 50 and ask 60 resting, the
invariant instantiates to 50 ≤ 60. -/
theorem claim_C2_witness :
    ∃ bb ba : Int, c2e2.bids.best_price = some bb ∧ c2e2.asks.best_price = some ba ∧ bb ≤ ba := by
  have h1 : process_order2 initExchange 1 c2ask = some (c2e1, none) := by decide
  have h2 : process_order2 c2e1 2 c2bid = some (c2e2, none) := by decide
  exact claim_C2 (Reachable.step_process (Reachable.step_process Reachable.init h1) h2)
    (by decide) (by decide)

/-! ### Claim C3 -/

theorem ordersAtPrice_pairwise_time {l : List (String × Order)} {p : Int}
    (h : l.Pairwise (fun a b => a.2.time ≤ b.2.time)) :
    (ordersAtPrice p l).Pairwise (fun a b => a.time ≤ b.time) := by
  unfold ordersAtPrice
  exact List.Pairwise.map _ (fun a b hab => hab) (h.sublist (List.filter_sublist _))

/-- The exchange after bids B01@40 (t=1), B02@40 (t=2) and an overwriting
re-quote B01@40 (t=3) are processed: both owners rest at the best price 40,
B02's order has the earlier timestamp, but B01's dict slot is first. -/
def c3e : Exchange :=
  ((process_order2
      ((process_order2
          ((process_order2 initExchange 1
              { tid := "B01", otype := Side.Bid, price := 40, qty := 1, time := 1, qid := 0 }).getD
            (initExchange, none)).1 2
          { tid := "B02", otype := Side.Bid, price := 40, qty := 1, time := 2, qid := 0 }).getD
        (initExchange, none)).1 3
      { tid := "B01", otype := Side.Bid, price := 40, qty := 1, time := 3, qid := 0 }).getD
    (initExchange, none)).1

/-- C3 counterexample: in the reachable state `c3e`, owners B01 and B02 both
rest at the best price 40, B02's contributing order is the earlier-timestamped
one (time 2 < 3), yet `delete_best` removes B01's order (an overwrite keeps
the owner's original dict position, so FIFO is owner-insertion order, not
timestamp order). -/
theorem claim_C3_counterexample :
    c3e.bids.best_price = some 40 ∧
    (c3e.bids.orders.lookup "B01").map (fun o => o.time) = some 3 ∧
    (c3e.bids.orders.lookup "B02").map (fun o => o.time) = some 2 ∧
    (c3e.bids.orders.lookup "B01").map (fun o => o.price) = some 40 ∧
    (c3e.bids.orders.lookup "B02").map (fun o => o.price) = some 40 ∧
    ((2 : ℚ) < 3) ∧
    (delete_best c3e.bids).map (fun x => x.2) = some "B01" := by
  decide

/-- C3 amended: `delete_best` removes the head of the owner-insertion-ordered
(FIFO) list of contributing orders at the best price, drops exactly that
owner from the dict and returns that owner's id; whenever the orders dict is
in timestamp order (no overwrite has reordered it), that head is an
earliest-timestamped order at the best price. -/
theorem claim_C3 {h : OrderbookHalf} (hwf : HalfWF h) {bp : Int} {o0 : Order}
    {rest : List Order}
    (hbp : h.best_price = some bp) (hlev : ordersAtPrice bp h.orders = o0 :: rest)
    (hchrono : h.orders.Pairwise (fun a b => a.2.time ≤ b.2.time)) :
    (delete_best h).map (fun x => x.2) = some o0.tid ∧
    (delete_best h).map (fun x => x.1.orders) = some (dictDel h.orders o0.tid) ∧
    ∀ o1 ∈ ordersAtPrice bp h.orders, o0.time ≤ o1.time := by
  obtain ⟨o0', rest', h', hlev', hdb, hord, _, _, _⟩ := delete_best_some hwf hbp
  rw [hlev] at hlev'
  have ho0 : o0' = o0 := (List.cons.inj hlev'.symm).1
  subst ho0
  refine ⟨by simp [hdb], by simp [hdb, hord], ?_⟩
  have hpw : (ordersAtPrice bp h.orders).Pairwise (fun a b => a.time ≤ b.time) :=
    ordersAtPrice_pairwise_time hchrono
  rw [hlev] at hpw
  intro o1 ho1
  rw [hlev] at ho1
  rcases List.mem_cons.1 ho1 with h1 | h1
  · rw [h1]
  · exact (List.pairwise_cons.1 hpw).1 o1 h1

/-- The exchange after bids B01@40 (t=1) and B02@40 (t=2) rest, with no
overwrite: the orders dict is in timestamp order. -/
def c3w : Exchange :=
  ((process_order2
      ((process_order2 initExchange 1
          { tid := "B01", otype := Side.Bid, price := 40, qty := 1, time := 1, qid := 0 }).getD
        (initExchange, none)).1 2
      { tid := "B02", otype := Side.Bid, price := 40, qty := 1, time := 2, qid := 0 }).getD
    (initExchange, none)).1

/-- C3 witness: with B01 (t=1) and B02 (t=2) resting at 40 and no overwrite,
`delete_best` removes B01 — the earliest-timestamped order at the best
price — and drops exactly that owner. -/
theorem claim_C3_witness :
    (delete_best c3w.bids).map (fun x => x.2) = some "B01" ∧
    (delete_best c3w.bids).map (fun x => x.1.orders) = some (dictDel c3w.bids.orders "B01") ∧
    ∀ o1 ∈ ordersAtPrice 40 c3w.bids.orders, (1 : ℚ) ≤ o1.time := by
  have h := @claim_C3 c3w.bids (by decide) 40
    { tid := "B01", otype := Side.Bid, price := 40, qty := 1, time := 1, qid := 0 }
    [{ tid := "B02", otype := Side.Bid, price := 40, qty := 1, time := 2, qid := 1 }]
    (by decide) (by decide) (by decide)
  exact h

/-! ### Claim C5 -/

/-- After `delete_best` returns, the cached best price is whatever the final
`build_lob()` call derives from the remaining orders — the intermediate
assignments (including the worst-price stub) are overwritten. -/
theorem delete_best_best_derived {h h' : OrderbookHalf} {cp : String}
    (hdb : delete_best h = some (h', cp)) :
    h'.best_price = bestFromAnon h'.booktype h'.orders := by
  unfold delete_best at hdb
  rcases hbp : h.best_price with _ | bp
  · rw [hbp] at hdb; cases hdb
  rw [hbp] at hdb
  dsimp only at hdb
  rcases hl : ordersAtPrice bp h.orders with _ | ⟨o0, rest⟩
  · rw [hl] at hdb; cases hdb
  rw [hl] at hdb
  dsimp only at hdb
  by_cases hq : qtyAtPrice bp h.orders = 1
  · rw [if_pos hq] at hdb
    by_cases hn1 : h.n_orders - 1 > 0
    · rw [if_pos hn1] at hdb
      injection Option.some.inj hdb with h2 h3
      rw [← h2]
      rfl
    · rw [if_neg hn1] at hdb
      injection Option.some.inj hdb with h2 h3
      rw [← h2]
      rfl
  · rw [if_neg hq] at hdb
    injection Option.some.inj hdb with h2 h3
    rw [← h2]
    rfl

/-- The exchange after the single ask S01@50 rests. -/
def c5e : Exchange :=
  ((process_order2 initExchange 1
      { tid := "S01", otype := Side.Ask, price := 50, qty := 1, time := 1, qid := 0 }).getD
    (initExchange, none)).1

/-- C5 counterexample: deleting the only resting ask empties the side, and
the cached best price afterwards is `None` — not the worst-price stub 1000:
the stub assignment inside `delete_best` is immediately overwritten by the
final `build_lob()`. -/
theorem claim_C5_counterexample :
    (delete_best c5e.asks).map (fun x => x.1.orders) = some [] ∧
    c5e.asks.worstprice = 1000 ∧
    (delete_best c5e.asks).map (fun x => x.1.best_price) = some none ∧
    (delete_best c5e.asks).map (fun x => x.1.best_price) ≠ some (some 1000) := by
  decide

/-- C5 amended: for every `delete_best` call that removes the last resting
order on a side, the side's cached best price afterwards is `None` (the
worst-price stub written mid-call is overwritten by the final rebuild). -/
theorem claim_C5 {h h' : OrderbookHalf} {cp : String}
    (hdb : delete_best h = some (h', cp)) (hempty : h'.orders = []) :
    h'.best_price = none := by
  rw [delete_best_best_derived hdb]
  exact bestFromAnon_eq_none_iff.2 hempty

/-- The half left behind by the C5 witness deletion. -/
def c5h : OrderbookHalf :=
  ((delete_best c5e.asks).getD (mkHalf Side.Ask 1000, "")).1

/-- C5 witness: deleting the only resting ask of `c5e` leaves a side whose
cached best price is `None`. -/
theorem claim_C5_witness : c5h.best_price = none := by
  have hdb : delete_best c5e.asks = some (c5h, "S01") := by decide
  exact claim_C5 hdb (by decide)

/-! ### Trader base class (claims C4 and C9) -/

/-- Return value of `Trader.add_order`: 'Proceed' or 'LOB_Cancel'. -/
inductive TraderResponse where
  | Proceed : TraderResponse
  | LOB_Cancel : TraderResponse
deriving DecidableEq, Repr

/-- The `Trader` superclass state (`Trader.__init__`).  `n_quotes` is the
trader's count of quotes live on the LOB (only ever assigned 0 or 1 by the
source, so it is a `Nat` here); `balance` is a Python float (`ℚ`). -/
structure Trader where
  ttype : String
  tid : String
  balance : ℚ
  blotter : List TapeRec
  orders : List Order
  n_quotes : Nat
  willing : Int
  able : Int
  birthtime : ℚ
  profitpertime : ℚ
  n_trades : Int
  lastquote : Option Order
deriving DecidableEq, Repr

/-- `Trader.add_order(order)`: report 'LOB_Cancel' when the trader records a
live quote on the LOB (`n_quotes > 0`), else 'Proceed'; in both cases replace
the pending customer-order list (capacity 1) by `[order]`. -/
def Trader.add_order (tr : Trader) (order : Order) : Trader × TraderResponse :=
  let response :=
    if tr.n_quotes > 0 then TraderResponse.LOB_Cancel else TraderResponse.Proceed
  ({ tr with orders := [order] }, response)

/-- The abnormal exits of `Trader.bookkeep`: `IndexError` on an empty
customer-order list, `ZeroDivisionError` when settling at the trader's birth
time, and the `sys.exit()` on negative profit.  (The Python method mutates
`self` before raising; this embedding reports which calls complete
normally.) -/
inductive BookkeepErr where
  | emptyOrders : BookkeepErr
  | notATrade : BookkeepErr
  | divByZero : BookkeepErr
  | negProfit : BookkeepErr
deriving DecidableEq, Repr

/-- `Trader.bookkeep(trade, order, verbose, time)`: append the trade to the
blotter, compute profit against the pending customer order (Bid: limit minus
trade price; Ask: trade price minus limit), add it to the balance, bump the
trade count, set `profitpertime = balance / (time - birthtime)`, abort on
negative profit, and clear the customer-order list. -/
def Trader.bookkeep (tr : Trader) (trade : TapeRec) (time : ℚ) : Except BookkeepErr Trader :=
  match trade with
  | TapeRec.cancel _ _ => Except.error BookkeepErr.notATrade
  | TapeRec.trade _ transactionprice _ _ _ =>
    match tr.orders with
    | [] => Except.error BookkeepErr.emptyOrders
    | o0 :: _ =>
      let profit : Int :=
        if o0.otype = Side.Bid then o0.price - transactionprice
        else transactionprice - o0.price
      let balance1 := tr.balance + (profit : ℚ)
      if time = tr.birthtime then Except.error BookkeepErr.divByZero
      else
        let profitpertime1 := balance1 / (time - tr.birthtime)
        if profit < 0 then Except.error BookkeepErr.negProfit
        else Except.ok { tr with blotter := tr.blotter ++ [trade],
                                 balance := balance1,
                                 n_trades := tr.n_trades + 1,
                                 profitpertime := profitpertime1,
                                 orders := [] }

/-- `Trader.__init__(ttype, tid, balance, time)`. -/
def mkTrader (ttype tid : String) (balance : ℚ) (time : ℚ) : Trader :=
  { ttype := ttype, tid := tid, balance := balance, blotter := [], orders := [],
    n_quotes := 0, willing := 1, able := 1, birthtime := time, profitpertime := 0,
    n_trades := 0, lastquote := none }

/-- In-place mutation of the trader object stored at a key of the `traders`
dict (`traders[tid].field = value` in Python). -/
def traders_update (l : List (String × Trader)) (k : String) (f : Trader → Trader) :
    List (String × Trader) :=
  l.map (fun entry => if entry.1 = k then (entry.1, f entry.2) else entry)

/-- The quote-submission fragment of `market_session` (borsim.py:1680-1691):
check the quote against the submitting trader's own customer limit (fatal
'Bad ask'/'Bad bid' otherwise), set `traders[tid].n_quotes = 1`, hand the
order to `process_order2`, and if a trade results call `bookkeep` on both
counterparties.  `none` models the fatal exits and errors; the
`dump_each_trade` branch and the subsequent `respond` broadcast are omitted —
they touch neither `n_quotes` nor the book. -/
def session_submit (traders : List (String × Trader)) (e : Exchange)
    (tid : String) (time : ℚ) (order : Order) :
    Option (List (String × Trader) × Exchange × Option TapeRec) :=
  match traders.lookup tid with
  | none => none
  | some trq =>
    match trq.orders with
    | [] => none
    | cust :: _ =>
      if order.otype = Side.Ask ∧ order.price < cust.price then none
      else if order.otype = Side.Bid ∧ order.price > cust.price then none
      else
        let traders1 := traders_update traders tid (fun tr => { tr with n_quotes := 1 })
        match process_order2 e time order with
        | none => none
        | some (e1, none) => some (traders1, e1, none)
        | some (_e1, some (TapeRec.cancel _ _)) => none
        | some (e1, some (TapeRec.trade tt p p1 p2 q)) =>
          match traders1.lookup p1 with
          | none => none
          | some trA =>
            match Trader.bookkeep trA (TapeRec.trade tt p p1 p2 q) time with
            | Except.error _ => none
            | Except.ok trA1 =>
              let traders2 := traders_update traders1 p1 (fun _ => trA1)
              match traders2.lookup p2 with
              | none => none
              | some trB =>
                match Trader.bookkeep trB (TapeRec.trade tt p p1 p2 q) time with
                | Except.error _ => none
                | Except.ok trB1 =>
                  some (traders_update traders2 p2 (fun _ => trB1), e1,
                        some (TapeRec.trade tt p p1 p2 q))

/-- S01's customer order for the C4 pipeline: sell with limit 50. -/
def c4custS : Order :=
  { tid := "S01", otype := Side.Ask, price := 50, qty := 1, time := 0, qid := 0 }

/-- B01's customer order for the C4 pipeline: buy with limit 60. -/
def c4custB : Order :=
  { tid := "B01", otype := Side.Bid, price := 60, qty := 1, time := 0, qid := 0 }

/-- The traders dict after both customer assignments (each through
`Trader.add_order`, which returned 'Proceed' on the fresh traders). -/
def c4traders0 : List (String × Trader) :=
  [("S01", (Trader.add_order (mkTrader "GVWY" "S01" 0 0) c4custS).1),
   ("B01", (Trader.add_order (mkTrader "GVWY" "B01" 0 0) c4custB).1)]

/-- The session state after S01's quote Ask@50 is submitted (it rests). -/
def c4step1 : List (String × Trader) × Exchange × Option TapeRec :=
  (session_submit c4traders0 initExchange "S01" 1
      { tid := "S01", otype := Side.Ask, price := 50, qty := 1, time := 1, qid := 0 }).getD
    ([], initExchange, none)

/-- The session state after B01's quote Bid@60 is submitted: it crosses,
trades at 50, and both counterparties are bookkept. -/
def c4step2 : List (String × Trader) × Exchange × Option TapeRec :=
  (session_submit c4step1.1 c4step1.2.1 "B01" 2
      { tid := "B01", otype := Side.Bid, price := 60, qty := 1, time := 2, qid := 0 }).getD
    ([], initExchange, none)

/-- B01's trader record after the trade settles. -/
def c4b01 : Trader := (c4step2.1.lookup "B01").getD (mkTrader "" "" 0 0)

/-- B01's next customer order. -/
def c4next : Order :=
  { tid := "B01", otype := Side.Bid, price := 55, qty := 1, time := 3, qid := 0 }

/-- C4 counterexample: after B01's quote trades — both orders are deleted
from the book (the book is now entirely empty) and B01's customer order is
settled — B01 currently has zero live quotes on the LOB, yet assigning the
next customer order returns 'LOB_Cancel', not 'Proceed': `market_session`
set `n_quotes = 1` at submission and nothing (in particular not `bookkeep`)
ever resets it. -/
theorem claim_C4_counterexample :
    c4step2.2.2 = some (TapeRec.trade 2 50 "S01" "B01" 1) ∧
    c4step2.2.1.bids.orders = [] ∧
    c4step2.2.1.asks.orders = [] ∧
    (c4step2.1.lookup "B01").map (fun tr => tr.orders) = some [] ∧
    (c4step2.1.lookup "B01").map (fun tr => tr.n_quotes) = some 1 ∧
    (Trader.add_order c4b01 c4next).2 = TraderResponse.LOB_Cancel ∧
    TraderResponse.LOB_Cancel ≠ TraderResponse.Proceed := by
  decide

/-- C4 amended: the result of `Trader.add_order` is driven by the trader's
`n_quotes` counter, not by what is actually live on the book — 'Proceed'
exactly when the counter is zero, 'LOB_Cancel' exactly when it is positive —
and in both cases the pending customer order (capacity 1) is replaced by the
new one.  The counter is set to 1 by `market_session` at quote submission and
never reset: in particular settlement (`bookkeep`) leaves it unchanged, so
after its first quote a trader receives 'LOB_Cancel' on every later
assignment even when no quote of its is live on the book. -/
theorem claim_C4 (tr : Trader) (o : Order) :
    ((Trader.add_order tr o).2 = TraderResponse.Proceed ↔ tr.n_quotes = 0) ∧
    ((Trader.add_order tr o).2 = TraderResponse.LOB_Cancel ↔ tr.n_quotes > 0) ∧
    (Trader.add_order tr o).1.orders = [o] ∧
    (Trader.add_order tr o).1.n_quotes = tr.n_quotes ∧
    (Trader.add_order tr o).1.lastquote = tr.lastquote ∧
    (∀ (trade : TapeRec) (time : ℚ) (tr1 : Trader),
      Trader.bookkeep tr trade time = Except.ok tr1 → tr1.n_quotes = tr.n_quotes) := by
  have hbk : ∀ (trade : TapeRec) (time : ℚ) (tr1 : Trader),
      Trader.bookkeep tr trade time = Except.ok tr1 → tr1.n_quotes = tr.n_quotes := by
    intro trade time tr1 hok
    cases trade with
    | cancel tt o1 =>
      unfold Trader.bookkeep at hok
      exact Except.noConfusion hok
    | trade tt p p1 p2 q =>
      unfold Trader.bookkeep at hok
      dsimp only at hok
      rcases horders : tr.orders with _ | ⟨o0, rest⟩
      · rw [horders] at hok
        exact Except.noConfusion hok
      · rw [horders] at hok
        dsimp only at hok
        by_cases ht : time = tr.birthtime
        · rw [if_pos ht] at hok
          exact Except.noConfusion hok
        · rw [if_neg ht] at hok
          by_cases hp : (if o0.otype = Side.Bid then o0.price - p else p - o0.price) < 0
          · rw [if_pos hp] at hok
            exact Except.noConfusion hok
          · rw [if_neg hp] at hok
            injection hok with h2
            rw [← h2]
  unfold Trader.add_order
  by_cases hq : tr.n_quotes > 0
  · rw [if_pos hq]
    refine ⟨?_, ?_, rfl, rfl, rfl, hbk⟩
    · constructor
      · intro hcontra; cases hcontra
      · intro h0; omega
    · simp [hq]
  · rw [if_neg hq]
    refine ⟨?_, ?_, rfl, rfl, rfl, hbk⟩
    · simp; omega
    · constructor
      · intro hcontra; cases hcontra
      · intro hpos; exact absurd hpos hq

/-- The C4 witness trader after a customer assignment and one quote
submission (the `market_session` assignment `n_quotes = 1`). -/
def c4wBase : Trader := (Trader.add_order (mkTrader "GVWY" "B01" 0 0) c4custB).1

/-- The C4 witness trader with the live-quote counter set. -/
def c4w1 : Trader := { c4wBase with n_quotes := 1 }

/-- The trader record `bookkeep` produces for `c4w1` settling at price 50 at
time 1. -/
def c4w2 : Trader :=
  { c4w1 with
      blotter := c4w1.blotter ++ [TapeRec.trade 1 50 "S01" "B01" 1],
      balance := c4w1.balance +
        (((if c4custB.otype = Side.Bid then c4custB.price - 50
           else 50 - c4custB.price : Int)) : ℚ),
      n_trades := c4w1.n_trades + 1,
      profitpertime := (c4w1.balance +
        (((if c4custB.otype = Side.Bid then c4custB.price - 50
           else 50 - c4custB.price : Int)) : ℚ)) / (1 - c4w1.birthtime),
      orders := [] }

/-- C4 witness: a fresh trader (counter 0) gets 'Proceed'; `c4w1` (counter 1)
gets 'LOB_Cancel'; and a concrete successful settlement leaves the counter
unchanged at 1. -/
theorem claim_C4_witness :
    (Trader.add_order (mkTrader "GVWY" "B03" 0 0) c4next).2 = TraderResponse.Proceed ∧
    (Trader.add_order c4w1 c4next).2 = TraderResponse.LOB_Cancel ∧
    c4w2.n_quotes = c4w1.n_quotes ∧
    c4w1.n_quotes = 1 := by
  refine ⟨?_, ?_, ?_, by decide⟩
  · exact (claim_C4 (mkTrader "GVWY" "B03" 0 0) c4next).1.mpr rfl
  · exact (claim_C4 c4w1 c4next).2.1.mpr (by decide)
  · exact (claim_C4 c4w1 c4next).2.2.2.2.2 (TapeRec.trade 1 50 "S01" "B01" 1) 1 c4w2 rfl

/-- C9: `Trader.bookkeep` is partial in the settlement time.  With a pending
customer order, a call at `time = birthtime` fails with the division-by-zero
error; a call at any other time never hits that error, and when the profit is
non-negative it completes with `profitpertime = (balance + profit) / (time -
birthtime)`. -/
theorem claim_C9 (tr : Trader) (tt : ℚ) (p : Int) (p1 p2 : String) (q : Int) (time : ℚ)
    {o0 : Order} {rest : List Order} (h : tr.orders = o0 :: rest) :
    (time = tr.birthtime →
      Trader.bookkeep tr (TapeRec.trade tt p p1 p2 q) time = Except.error BookkeepErr.divByZero) ∧
    (time ≠ tr.birthtime →
      Trader.bookkeep tr (TapeRec.trade tt p p1 p2 q) time ≠ Except.error BookkeepErr.divByZero) ∧
    (time ≠ tr.birthtime →
      0 ≤ (if o0.otype = Side.Bid then o0.price - p else p - o0.price) →
      Trader.bookkeep tr (TapeRec.trade tt p p1 p2 q) time =
        Except.ok { tr with
          blotter := tr.blotter ++ [TapeRec.trade tt p p1 p2 q],
          balance := tr.balance +
            ((if o0.otype = Side.Bid then o0.price - p else p - o0.price : Int) : ℚ),
          n_trades := tr.n_trades + 1,
          profitpertime := (tr.balance +
            ((if o0.otype = Side.Bid then o0.price - p else p - o0.price : Int) : ℚ)) /
            (time - tr.birthtime),
          orders := [] }) := by
  unfold Trader.bookkeep
  rw [h]
  dsimp only
  refine ⟨?_, ?_, ?_⟩
  · intro heq
    rw [if_pos heq]
  · intro hne
    rw [if_neg hne]
    by_cases hp : (if o0.otype = Side.Bid then o0.price - p else p - o0.price) < 0
    · rw [if_pos hp]; intro hcontra; cases hcontra
    · rw [if_neg hp]; intro hcontra; cases hcontra
  · intro hne hprofit
    rw [if_neg hne, if_neg (by omega : ¬ (if o0.otype = Side.Bid then o0.price - p else p - o0.price) < 0)]

/-- The C9 witness trader: a buyer with customer order limit 10, born at
time 0 with balance 0. -/
def c9tr : Trader :=
  { ttype := "GVWY", tid := "B00", balance := 0, blotter := [],
    orders := [{ tid := "B00", otype := Side.Bid, price := 10, qty := 1, time := 0, qid := 0 }],
    n_quotes := 1, willing := 1, able := 1, birthtime := 0, profitpertime := 0,
    n_trades := 0, lastquote := none }

/-- C9 witness: settling `c9tr` at time 1 (≠ birthtime 0) against a trade at
price 7 yields profit 3 and `profitpertime = 3 / 1`; settling at time 0 (the
birth time) fails with the division-by-zero error. -/
theorem claim_C9_witness :
    Trader.bookkeep c9tr (TapeRec.trade 1 7 "S00" "B00" 1) 1 =
      Except.ok { c9tr with
        blotter := [TapeRec.trade 1 7 "S00" "B00" 1],
        balance := (0 : ℚ) + (((10 : Int) - 7 : Int) : ℚ),
        n_trades := 1,
        profitpertime := ((0 : ℚ) + (((10 : Int) - 7 : Int) : ℚ)) / ((1 : ℚ) - 0),
        orders := [] } ∧
    Trader.bookkeep c9tr (TapeRec.trade 1 7 "S00" "B00" 1) 0 =
      Except.error BookkeepErr.divByZero := by
  constructor
  · exact (claim_C9 c9tr 1 7 "S00" "B00" 1 1 rfl).2.2 (by decide) (by decide)
  · exact (claim_C9 c9tr 1 7 "S00" "B00" 1 0 rfl).1 (by decide)

/-! ### Trader_ZIP (claim C7) -/

/-- Python's `int()` applied to a float/rational: truncation toward zero. -/
def pyInt (q : ℚ) : Int := if q < 0 then ⌈q⌉ else ⌊q⌋

/-- Modelled from the spec's words for comparison: `round(x)` as
round-to-nearest (the spec says the quote price is `round(limit × (1 +
margin))`; at the counterexample input the value is unambiguously nearer the
larger integer, so tie-breaking conventions do not matter). -/
def specRound (q : ℚ) : Int := ⌊q + 1/2⌋

/-- The `Trader_ZIP` state (`Trader_ZIP.__init__`); floats become `ℚ`, the
birth-time random draws (`beta`, `momntm`, margins) are carried as state. -/
structure TraderZIP where
  ttype : String
  tid : String
  balance : ℚ
  birthtime : ℚ
  profitpertime : ℚ
  n_trades : Int
  blotter : List TapeRec
  orders : List Order
  n_quotes : Nat
  lastquote : Option Order
  job : Option Side
  active : Bool
  prev_change : ℚ
  beta : ℚ
  momntm : ℚ
  ca : ℚ
  cr : ℚ
  margin : Option ℚ
  margin_buy : ℚ
  margin_sell : ℚ
  price : Option Int
  limit : Option Int
  prev_best_bid_p : Option Int
  prev_best_bid_q : Option Int
  prev_best_ask_p : Option Int
  prev_best_ask_q : Option Int
deriving DecidableEq, Repr

/-- `Trader_ZIP.getorder(time, countdown, lob)`: when a customer order is
pending, pick the side's margin, quote at `int(limit * (1 + margin))`
(truncation), record the working state and return the order.  The published
lob is consulted only for `lob['QID']`, passed here as `qid`. -/
def TraderZIP.getorder (tr : TraderZIP) (time : ℚ) (qid : Int) :
    TraderZIP × Option Order :=
  match tr.orders with
  | [] => ({ tr with active := false }, none)
  | o0 :: _ =>
    let limit := o0.price
    let job := o0.otype
    let margin :=
      match job with
      | Side.Bid => tr.margin_buy
      | Side.Ask => tr.margin_sell
    let quoteprice := pyInt ((limit : ℚ) * (1 + margin))
    let order : Order :=
      { tid := tr.tid, otype := job, price := quoteprice, qty := o0.qty,
        time := time, qid := qid }
    ({ tr with active := true, limit := some limit, job := some job,
               margin := some margin, price := some quoteprice,
               lastquote := some order },
     some order)

/-- The C7 counterexample trader: a seller with customer limit 10 and selling
margin 0.06. -/
def c7tr : TraderZIP :=
  { ttype := "ZIP", tid := "S00", balance := 0, birthtime := 0, profitpertime := 0,
    n_trades := 0, blotter := [],
    orders := [{ tid := "S00", otype := Side.Ask, price := 10, qty := 1, time := 0, qid := 0 }],
    n_quotes := 0, lastquote := none, job := none, active := false,
    prev_change := 0, beta := 1/4, momntm := 1/20, ca := 1/20, cr := 1/20,
    margin := none, margin_buy := -1/4, margin_sell := 3/50, price := none,
    limit := none, prev_best_bid_p := none, prev_best_bid_q := none,
    prev_best_ask_p := none, prev_best_ask_q := none }

/-- C7 counterexample: with limit 10 and margin 0.06, `limit × (1 + margin) =
10.6`; the code's `int()` truncation quotes 10, while the spec's
`round(limit × (1 + margin))` is 11. -/
theorem claim_C7_counterexample :
    ((TraderZIP.getorder c7tr 1 5).2).map (fun o => o.price) =
      some (pyInt ((((10 : Int)) : ℚ) * (1 + 3/50))) ∧
    pyInt ((((10 : Int)) : ℚ) * (1 + 3/50)) = 10 ∧
    specRound ((((10 : Int)) : ℚ) * (1 + 3/50)) = 11 := by
  refine ⟨rfl, ?_, ?_⟩
  · have h : ((((10 : Int)) : ℚ) * (1 + 3/50)) = 53/5 := by norm_num
    rw [pyInt, h, if_neg (by norm_num)]
    rw [Int.floor_eq_iff]; norm_num
  · have h : ((((10 : Int)) : ℚ) * (1 + 3/50)) + 1/2 = 111/10 := by norm_num
    rw [specRound, h]
    rw [Int.floor_eq_iff]; norm_num

/-- C7 amended: for every ZIP trader with a pending customer order of limit
price L and current margin m for the working side, `getorder` returns an
order priced exactly `int(L × (1 + m))` — truncation toward zero, not
`round`. -/
theorem claim_C7 {tr : TraderZIP} {o0 : Order} {rest : List Order}
    (h : tr.orders = o0 :: rest) (time : ℚ) (qid : Int) :
    ((TraderZIP.getorder tr time qid).2).map (fun o => o.price) =
      some (pyInt ((o0.price : ℚ) *
        (1 + match o0.otype with
             | Side.Bid => tr.margin_buy
             | Side.Ask => tr.margin_sell))) := by
  unfold TraderZIP.getorder
  rw [h]
  rfl

/-- The C7 witness trader: a buyer with customer limit 12 and buying margin
-1/4 (so the quote is `int(12 × 0.75) = 9`). -/
def c7w : TraderZIP :=
  { c7tr with
      tid := "B00",
      orders := [{ tid := "B00", otype := Side.Bid, price := 12, qty := 1, time := 0, qid := 0 }] }

/-- C7 witness: the buyer `c7w` quotes `int(12 × (1 - 1/4)) = 9`. -/
theorem claim_C7_witness :
    ((TraderZIP.getorder c7w 1 5).2).map (fun o => o.price) =
      some (pyInt ((((12 : Int)) : ℚ) * (1 + (-1/4)))) ∧
    pyInt ((((12 : Int)) : ℚ) * (1 + (-1/4))) = 9 := by
  constructor
  · exact @claim_C7 c7w
      { tid := "B00", otype := Side.Bid, price := 12, qty := 1, time := 0, qid := 0 } []
      rfl 1 5
  · have h : ((((12 : Int)) : ℚ) * (1 + (-1/4))) = 9 := by norm_num
    rw [pyInt, h, if_neg (by norm_num)]
    simp

/-! ### Trader_AA (claim C8) -/

/-- An AA quote.  The source reuses the `Order` class, but AA computes float
(here: rational) prices; this record carries the exact rational price. -/
structure OrderAA where
  tid : String
  otype : Side
  price : ℚ
  qty : Int
  time : ℚ
  qid : Int
deriving DecidableEq, Repr

/-- The `Trader_AA` state (`Trader_AA.__init__`); floats become `ℚ` and the
birth-time random draws are carried as state. -/
structure TraderAA where
  ttype : String
  tid : String
  balance : ℚ
  birthtime : ℚ
  profitpertime : ℚ
  n_trades : Int
  blotter : List TapeRec
  orders : List Order
  n_quotes : Nat
  lastquote : Option OrderAA
  limit : Option ℚ
  job : Option Side
  r_shout_change_relative : ℚ
  r_shout_change_absolute : ℚ
  short_term_learning_rate : ℚ
  long_term_learning_rate : ℚ
  moving_average_weight_decay : ℚ
  moving_average_window_size : Nat
  offer_change_rate : ℚ
  theta : ℚ
  theta_max : ℚ
  theta_min : ℚ
  marketMax : Int
  previous_transactions : List ℚ
  moving_average_weights : List ℚ
  estimated_equilibrium : List ℚ
  smiths_alpha : List ℚ
  prev_best_bid_p : Option ℚ
  prev_best_bid_q : Option ℚ
  prev_best_ask_p : Option ℚ
  prev_best_ask_q : Option ℚ
  r_shout : Option ℚ
  buy_target : Option ℚ
  sell_target : Option ℚ
  buy_r : ℚ
  sell_r : ℚ
deriving DecidableEq, Repr

/-- The `o_bid` default of `Trader_AA.getorder`: previous best bid, or 0 when
there is none. -/
def TraderAA.o_bid (tr : TraderAA) : ℚ :=
  match tr.prev_best_bid_p with
  | none => 0
  | some p => p

/-- The `o_ask` default of `Trader_AA.getorder`: previous best ask, or
`marketMax` when there is none. -/
def TraderAA.o_ask (tr : TraderAA) : ℚ :=
  match tr.prev_best_ask_p with
  | none => (tr.marketMax : ℚ)
  | some p => p

/-- `Trader_AA.getorder(time, countdown, lob)`: with a pending customer
order, take `limit`/`job` from it; a buyer returns `None` when `limit ≤
o_bid` (the previous best on its OWN side), otherwise quotes a step from
`o_bid` toward `min(limit, o_ask_plus)` (or toward `buy_target` before any
transaction) scaled by `offer_change_rate`; a seller mirrors this against
`o_ask`.  The preceding `calcTarget()` call computes `buy_target`/
`sell_target` with float exponentials; its results are abstracted as the
`buyTarget`/`sellTarget` arguments (the source stores them in the state). -/
def TraderAA.getorder (buyTarget sellTarget : ℚ) (tr : TraderAA) (time : ℚ) (qid : Int) :
    Option OrderAA :=
  match tr.orders with
  | [] => none
  | o0 :: _ =>
    let limit : ℚ := (o0.price : ℚ)
    match o0.otype with
    | Side.Bid =>
      if limit ≤ tr.o_bid then none
      else
        let quoteprice : ℚ :=
          if tr.previous_transactions.length > 0 then
            let o_ask_plus := (1 + tr.r_shout_change_relative) * tr.o_ask +
              tr.r_shout_change_absolute
            tr.o_bid + ((min limit o_ask_plus - tr.o_bid) / tr.offer_change_rate)
          else
            if tr.o_ask ≤ buyTarget then tr.o_ask
            else tr.o_bid + ((buyTarget - tr.o_bid) / tr.offer_change_rate)
        some { tid := tr.tid, otype := o0.otype, price := quoteprice, qty := o0.qty,
               time := time, qid := qid }
    | Side.Ask =>
      if limit ≥ tr.o_ask then none
      else
        let quoteprice : ℚ :=
          if tr.previous_transactions.length > 0 then
            let o_bid_minus := (1 - tr.r_shout_change_relative) * tr.o_bid -
              tr.r_shout_change_absolute
            tr.o_ask - ((tr.o_ask - max limit o_bid_minus) / tr.offer_change_rate)
          else
            if tr.o_bid ≥ sellTarget then tr.o_bid
            else tr.o_ask - ((tr.o_ask - sellTarget) / tr.offer_change_rate)
        some { tid := tr.tid, otype := o0.otype, price := quoteprice, qty := o0.qty,
               time := time, qid := qid }

/-- The C8 counterexample trader: a buyer with limit 60, previous best bid
50, previous best ask 70, and one past transaction. -/
def c8tr : TraderAA :=
  { ttype := "AA", tid := "B00", balance := 0, birthtime := 0, profitpertime := 0,
    n_trades := 0, blotter := [],
    orders := [{ tid := "B00", otype := Side.Bid, price := 60, qty := 1, time := 0, qid := 0 }],
    n_quotes := 0, lastquote := none, limit := none, job := none,
    r_shout_change_relative := 1/20, r_shout_change_absolute := 1/20,
    short_term_learning_rate := 1/4, long_term_learning_rate := 1/4,
    moving_average_weight_decay := 19/20, moving_average_window_size := 5,
    offer_change_rate := 3, theta := -2, theta_max := 2, theta_min := -8,
    marketMax := 1000, previous_transactions := [65], moving_average_weights := [1],
    estimated_equilibrium := [65], smiths_alpha := [0],
    prev_best_bid_p := some 50, prev_best_bid_q := some 1,
    prev_best_ask_p := some 70, prev_best_ask_q := some 1,
    r_shout := none, buy_target := some 55, sell_target := some 55,
    buy_r := 0, sell_r := 0 }

/-- C8 counterexample: the buyer `c8tr` has limit 60, strictly worse than the
opposite-side best (the best ask, 70) — the claim says `getorder` must return
`None` — yet the code compares the limit against the best **bid** (50) and
returns a quote. -/
theorem claim_C8_counterexample :
    ((60 : ℚ) < 70) ∧
    (c8tr.orders.head?).map (fun o => o.otype) = some Side.Bid ∧
    (c8tr.orders.head?).map (fun o => o.price) = some 60 ∧
    c8tr.prev_best_ask_p = some 70 ∧
    (TraderAA.getorder 0 0 c8tr 1 5).isSome = true := by
  refine ⟨by norm_num, rfl, rfl, rfl, ?_⟩
  norm_num [TraderAA.getorder, c8tr, TraderAA.o_bid, TraderAA.o_ask]

/-- C8 amended: `getorder` (with a pending customer order) returns `None`
exactly when the limit fails to beat the previous best on the trader's OWN
side — for a buyer, `limit ≤ o_bid` (previous best bid, 0 when absent); for a
seller, `limit ≥ o_ask` (previous best ask, `marketMax` when absent).
Otherwise it quotes a step from the own-side best toward the capped target,
scaled by the fixed offer-change-rate divisor (3.0 in `__init__`), with the
`buy_target`/`sell_target` special case before any transaction. -/
theorem claim_C8 (buyTarget sellTarget : ℚ) {tr : TraderAA} {o0 : Order}
    {rest : List Order} (h : tr.orders = o0 :: rest) (time : ℚ) (qid : Int) :
    (TraderAA.getorder buyTarget sellTarget tr time qid = none ↔
      (o0.otype = Side.Bid ∧ (o0.price : ℚ) ≤ tr.o_bid) ∨
      (o0.otype = Side.Ask ∧ tr.o_ask ≤ (o0.price : ℚ))) ∧
    (o0.otype = Side.Bid → tr.o_bid < (o0.price : ℚ) →
      tr.previous_transactions.length > 0 →
      (TraderAA.getorder buyTarget sellTarget tr time qid).map (fun x => x.price) =
        some (tr.o_bid +
          ((min ((o0.price : ℚ))
              ((1 + tr.r_shout_change_relative) * tr.o_ask + tr.r_shout_change_absolute) -
            tr.o_bid) / tr.offer_change_rate))) ∧
    (o0.otype = Side.Ask → (o0.price : ℚ) < tr.o_ask →
      tr.previous_transactions.length > 0 →
      (TraderAA.getorder buyTarget sellTarget tr time qid).map (fun x => x.price) =
        some (tr.o_ask -
          ((tr.o_ask - max ((o0.price : ℚ))
              ((1 - tr.r_shout_change_relative) * tr.o_bid - tr.r_shout_change_absolute)) /
            tr.offer_change_rate))) := by
  unfold TraderAA.getorder
  rw [h]
  dsimp only
  refine ⟨?_, ?_, ?_⟩
  · cases ho : o0.otype with
    | Bid =>
      by_cases hle : ((o0.price : ℚ)) ≤ tr.o_bid
      · rw [if_pos hle]
        simp [hle]
      · rw [if_neg hle]
        constructor
        · intro hc; cases hc
        · rintro (⟨-, hc⟩ | ⟨hb, -⟩)
          · exact absurd hc hle
          · cases hb
    | Ask =>
      by_cases hge : ((o0.price : ℚ)) ≥ tr.o_ask
      · rw [if_pos hge]
        simp [hge]
      · rw [if_neg hge]
        constructor
        · intro hc; cases hc
        · rintro (⟨hb, -⟩ | ⟨-, hc⟩)
          · cases hb
          · exact absurd hc hge
  · intro ho hlt htrans
    rw [ho]
    dsimp only
    rw [if_neg (not_le.2 hlt), if_pos htrans]
    rfl
  · intro ho hlt htrans
    rw [ho]
    dsimp only
    rw [if_neg (not_le.2 hlt), if_pos htrans]
    rfl

/-- The C8 witness trader: a seller with limit 50, previous best bid 40,
previous best ask 80, and one past transaction. -/
def c8w : TraderAA :=
  { c8tr with
      tid := "S00",
      orders := [{ tid := "S00", otype := Side.Ask, price := 50, qty := 1, time := 0, qid := 0 }],
      prev_best_bid_p := some 40,
      prev_best_ask_p := some 80 }

/-- C8 witness: the seller `c8w` (limit 50 better than its own-side best 80)
quotes `80 - (80 - max(50, (1 - 0.05)·40 - 0.05)) / 3 = 70`. -/
theorem claim_C8_witness :
    (TraderAA.getorder 0 0 c8w 1 5).map (fun x => x.price) =
      some (c8w.o_ask -
        ((c8w.o_ask - max ((((50 : Int)) : ℚ))
            ((1 - c8w.r_shout_change_relative) * c8w.o_bid - c8w.r_shout_change_absolute)) /
          c8w.offer_change_rate)) ∧
    c8w.o_ask -
        ((c8w.o_ask - max ((((50 : Int)) : ℚ))
            ((1 - c8w.r_shout_change_relative) * c8w.o_bid - c8w.r_shout_change_absolute)) /
          c8w.offer_change_rate) = 70 := by
  constructor
  · exact (@claim_C8 0 0 c8w
      { tid := "S00", otype := Side.Ask, price := 50, qty := 1, time := 0, qid := 0 } []
      rfl 1 5).2.2 rfl (by norm_num [TraderAA.o_ask, c8w, c8tr]) (by decide)
  · show (80 : ℚ) - ((80 - max ((((50 : Int)) : ℚ)) ((1 - 1/20) * 40 - 1/20)) / 3) = 70
    norm_num

/-! ### publish_lob reference semantics (claim C6)

Python assignment copies references, not objects: `public_data['tape'] =
self.tape` and `'lob': self.bids.lob_anon` store pointers to the exchange's
own mutable lists.  To state what a caller can do through the snapshot, the
mutable list objects live in an explicit store and both the exchange and the
snapshot hold references (store indices) to them; scalar fields (ints,
`None`) are immutable in Python and are copied by value. -/

/-- The store of mutable list objects referenced by the exchange: the tape
and the two anonymized lob lists. -/
structure PyStore where
  tapes : List (List TapeRec)
  anons : List (List (Int × Int))
deriving DecidableEq, Repr

/-- The exchange's view for publishing: references to its own mutable lists
plus the scalar summary fields `publish_lob` reads. -/
structure ExchangeRefs where
  bidsAnonRef : Nat
  asksAnonRef : Nat
  tapeRef : Nat
  bids_best : Option Int
  bids_worst : Int
  bids_n : Int
  asks_best : Option Int
  asks_worst : Int
  asks_n : Int
  quote_id : Int
deriving DecidableEq, Repr

/-- The dict `publish_lob` returns: `{'time', 'bids': {'best', 'worst', 'n',
'lob'}, 'asks': {...}, 'QID', 'tape'}`, where the `lob` and `tape` entries
are references to the exchange's own lists. -/
structure PublishedLob where
  time : ℚ
  bids_best : Option Int
  bids_worst : Int
  bids_n : Int
  bids_lob : Nat
  asks_best : Option Int
  asks_worst : Int
  asks_n : Int
  asks_lob : Nat
  QID : Int
  tape : Nat
deriving DecidableEq, Repr

/-- `Exchange.publish_lob(time)`: build the public dict.  The scalar fields
are copied; the `lob`/`tape` entries are the same references the exchange
holds (`public_data['tape'] = self.tape` — no copy is taken). -/
def publish_lob (e : ExchangeRefs) (time : ℚ) : PublishedLob :=
  { time := time,
    bids_best := e.bids_best, bids_worst := e.bids_worst, bids_n := e.bids_n,
    bids_lob := e.bidsAnonRef,
    asks_best := e.asks_best, asks_worst := e.asks_worst, asks_n := e.asks_n,
    asks_lob := e.asksAnonRef,
    QID := e.quote_id, tape := e.tapeRef }

/-- Mutate the tape object at a reference (what a caller holding the
snapshot's `tape` entry can do, e.g. `lob['tape'].append(...)`). -/
def storeSetTape (s : PyStore) (r : Nat) (v : List TapeRec) : PyStore :=
  { s with tapes := s.tapes.set r v }

/-- Read the tape object at a reference. -/
def storeGetTape (s : PyStore) (r : Nat) : List TapeRec :=
  s.tapes.getD r []

/-- A concrete store: the exchange's tape object (empty) at index 0 and its
two anonymized lob lists at indices 0 and 1. -/
def c6store : PyStore :=
  { tapes := [[]], anons := [[], [(50, 1)]] }

/-- A concrete exchange view holding references into `c6store`. -/
def c6exch : ExchangeRefs :=
  { bidsAnonRef := 0, asksAnonRef := 1, tapeRef := 0,
    bids_best := none, bids_worst := 1, bids_n := 0,
    asks_best := some 50, asks_worst := 1000, asks_n := 1, quote_id := 1 }

/-- C6 counterexample: the snapshot returned by `publish_lob` is NOT an
immutable/deep copy — writing to the tape object through the snapshot's
`tape` reference changes the tape the live exchange reads, because
`publish_lob` stored the exchange's own reference. -/
theorem claim_C6_counterexample :
    storeGetTape c6store c6exch.tapeRef = [] ∧
    storeGetTape
      (storeSetTape c6store (publish_lob c6exch 1).tape
        [TapeRec.trade 1 50 "S01" "B01" 1])
      c6exch.tapeRef = [TapeRec.trade 1 50 "S01" "B01" 1] := by
  decide

/-- C6 amended: `publish_lob` copies the scalar summary fields but aliases
the mutable containers: the returned snapshot's `lob` and `tape` entries are
exactly the exchange's own references, so any mutation through them is a
mutation of the live book.  The snapshot is read-only by convention only. -/
theorem claim_C6 (e : ExchangeRefs) (time : ℚ) :
    (publish_lob e time).tape = e.tapeRef ∧
    (publish_lob e time).bids_lob = e.bidsAnonRef ∧
    (publish_lob e time).asks_lob = e.asksAnonRef ∧
    (publish_lob e time).bids_best = e.bids_best ∧
    (publish_lob e time).asks_best = e.asks_best ∧
    (publish_lob e time).QID = e.quote_id :=
  ⟨rfl, rfl, rfl, rfl, rfl, rfl⟩

/-! ### Trader_GDX belief functions (claim C10) -/

/-- The observation memory of a GDX trader: accumulated accepted bid/ask
prices and the outstanding lob snapshots (`[price, qty]` entries). -/
structure GDXMemory where
  outstanding_bids : List (Int × Int)
  outstanding_asks : List (Int × Int)
  accepted_asks : List Int
  accepted_bids : List Int
deriving DecidableEq, Repr

/-- `Trader_GDX.belief_sell(price)`: the empirical probability that an ask at
`price` would be accepted — accepted asks at or above `price` plus
outstanding bids at or above `price`, over those plus outstanding asks at or
below `price`; 0 when there are no qualifying observations.  Prices compared
against the candidate are the integer lob prices; the candidate itself can be
fractional (the grid search probes steps of 0.05). -/
def belief_sell (g : GDXMemory) (price : ℚ) : ℚ :=
  let accepted_asks_greater := (g.accepted_asks.filter (fun p => (p : ℚ) ≥ price)).length
  let bids_greater :=
    ((g.outstanding_bids.map (fun thing => thing.1)).filter (fun p => (p : ℚ) ≥ price)).length
  let unaccepted_asks_lower :=
    ((g.outstanding_asks.map (fun thing => thing.1)).filter (fun p => (p : ℚ) ≤ price)).length
  if accepted_asks_greater + bids_greater + unaccepted_asks_lower = 0 then 0
  else ((accepted_asks_greater + bids_greater : Nat) : ℚ) /
    ((accepted_asks_greater + bids_greater + unaccepted_asks_lower : Nat) : ℚ)

/-- `Trader_GDX.belief_buy(price)`: the empirical probability that a bid at
`price` would be accepted — accepted bids at or below `price` plus
outstanding asks at or below `price`, over those plus outstanding bids at or
above `price`; 0 when there are no qualifying observations. -/
def belief_buy (g : GDXMemory) (price : ℚ) : ℚ :=
  let accepted_bids_lower := (g.accepted_bids.filter (fun p => (p : ℚ) ≤ price)).length
  let asks_lower :=
    ((g.outstanding_asks.map (fun thing => thing.1)).filter (fun p => (p : ℚ) ≤ price)).length
  let unaccepted_bids_greater :=
    ((g.outstanding_bids.map (fun thing => thing.1)).filter (fun p => (p : ℚ) ≥ price)).length
  if accepted_bids_lower + asks_lower + unaccepted_bids_greater = 0 then 0
  else ((accepted_bids_lower + asks_lower : Nat) : ℚ) /
    ((accepted_bids_lower + asks_lower + unaccepted_bids_greater : Nat) : ℚ)

theorem ratio_bounds (a b : Nat) (hb : ¬ a + b = 0) :
    0 ≤ ((a : ℚ)) / ((a + b : Nat) : ℚ) ∧ ((a : ℚ)) / ((a + b : Nat) : ℚ) ≤ 1 := by
  have hpos : (0 : ℚ) < ((a + b : Nat) : ℚ) := by
    have : 0 < a + b := Nat.pos_of_ne_zero hb
    exact_mod_cast this
  constructor
  · apply div_nonneg
    · exact_mod_cast Nat.zero_le a
    · exact le_of_lt hpos
  · rw [div_le_one hpos]
    exact_mod_cast Nat.le_add_right a b

/-- C10: GDX's belief functions are total and bounded — for every (possibly
fractional) candidate price and every observation memory, `belief_sell` and
`belief_buy` return 0 when there are no qualifying observations (the empty-
denominator guard fires) and always return a value in the closed interval
[0, 1]. -/
theorem claim_C10 (g : GDXMemory) (price : ℚ) :
    (0 ≤ belief_sell g price ∧ belief_sell g price ≤ 1) ∧
    (0 ≤ belief_buy g price ∧ belief_buy g price ≤ 1) ∧
    ((g.accepted_asks.filter (fun p => (p : ℚ) ≥ price)).length +
        ((g.outstanding_bids.map (fun thing => thing.1)).filter (fun p => (p : ℚ) ≥ price)).length +
        ((g.outstanding_asks.map (fun thing => thing.1)).filter (fun p => (p : ℚ) ≤ price)).length = 0 →
      belief_sell g price = 0) ∧
    ((g.accepted_bids.filter (fun p => (p : ℚ) ≤ price)).length +
        ((g.outstanding_asks.map (fun thing => thing.1)).filter (fun p => (p : ℚ) ≤ price)).length +
        ((g.outstanding_bids.map (fun thing => thing.1)).filter (fun p => (p : ℚ) ≥ price)).length = 0 →
      belief_buy g price = 0) := by
  refine ⟨?_, ?_, ?_, ?_⟩
  · unfold belief_sell
    dsimp only
    by_cases hz : (g.accepted_asks.filter (fun p => (p : ℚ) ≥ price)).length +
        ((g.outstanding_bids.map (fun thing => thing.1)).filter (fun p => (p : ℚ) ≥ price)).length +
        ((g.outstanding_asks.map (fun thing => thing.1)).filter (fun p => (p : ℚ) ≤ price)).length = 0
    · rw [if_pos hz]; norm_num
    · rw [if_neg hz]
      exact ratio_bounds _ _ hz
  · unfold belief_buy
    dsimp only
    by_cases hz : (g.accepted_bids.filter (fun p => (p : ℚ) ≤ price)).length +
        ((g.outstanding_asks.map (fun thing => thing.1)).filter (fun p => (p : ℚ) ≤ price)).length +
        ((g.outstanding_bids.map (fun thing => thing.1)).filter (fun p => (p : ℚ) ≥ price)).length = 0
    · rw [if_pos hz]; norm_num
    · rw [if_neg hz]
      exact ratio_bounds _ _ hz
  · intro hz
    unfold belief_sell
    dsimp only
    rw [if_pos hz]
  · intro hz
    unfold belief_buy
    dsimp only
    rw [if_pos hz]

/-- A concrete GDX memory with no observations at all. -/
def c10empty : GDXMemory :=
  { outstanding_bids := [], outstanding_asks := [], accepted_asks := [], accepted_bids := [] }

/-- A concrete GDX memory with a few observations. -/
def c10mem : GDXMemory :=
  { outstanding_bids := [(45, 1)], outstanding_asks := [(55, 1), (60, 1)],
    accepted_asks := [52], accepted_bids := [48] }

/-- C10 witness: with no observations both beliefs are 0 (the guard fires),
and with a concrete memory both beliefs lie in [0, 1]. -/
theorem claim_C10_witness :
    belief_sell c10empty 50 = 0 ∧
    belief_buy c10empty 50 = 0 ∧
    (0 ≤ belief_sell c10mem 50 ∧ belief_sell c10mem 50 ≤ 1) ∧
    (0 ≤ belief_buy c10mem 50 ∧ belief_buy c10mem 50 ≤ 1) := by
  refine ⟨?_, ?_, (claim_C10 c10mem 50).1, (claim_C10 c10mem 50).2.1⟩
  · exact (claim_C10 c10empty 50).2.2.1 (by decide)
  · exact (claim_C10 c10empty 50).2.2.2 (by decide)

end Borsim
